import Mathlib

/-!
Verification of the GraphForge hub-synchronization engine.

This file gives a shallow embedding, in Lean, of the engine's source code:
the path rules (`pathRules.ts`), the hub registry resolver and stabilization
waiter (`hubForFolder.ts`), the hub content builder and full rebuild pass
(`hubContent.ts`), the leaf link upserter and link-refresh pass
(`linksInNotes.ts`), the write-lock suppressor (`writeLock.ts`), the vault
event handlers (`vaultEvents.ts`) and the plugin commands (`main.ts`).

Modelling conventions, used throughout:
* A string is its list of characters (Lean's `String` is a structure over
  `List Char`, which matches the JS string model closely enough here).
* The vault is a snapshot: a list of folders (with a `stat` function giving
  creation times, `adapter.stat(path)?.ctime`), plus a list of files.  Every
  file in the model is a markdown file (the engine only ever reads, creates,
  renames and trashes `.md` files; the `extension === "md"` checks of the
  source are therefore modelled as always true).
* Asynchronous engine passes are modelled as pure state transformers
  `Vault → Vault × Nat` where the `Nat` counts storage writes
  (create / modify / rename / trash operations actually performed).
* JS regexes are embedded by their matching semantics on the one concrete
  pattern the source builds (all dynamic parts are escaped with
  `escapeRegex`, so they denote literal characters).
-/

/-! ### Timing constants (`constants.ts`) -/

/-- `WAIT_FOR_HUB_ATTEMPTS` from `constants.ts`: number of attempts when
waiting for a hub to be numbered. -/
def WAIT_FOR_HUB_ATTEMPTS : Nat := 60

/-- `WAIT_MS_PER_ATTEMPT` from `constants.ts`. -/
def WAIT_MS_PER_ATTEMPT : Nat := 100

/-- `WRITE_LOCK_MS` from `constants.ts`: write lock TTL in milliseconds. -/
def WRITE_LOCK_MS : Int := 1200

/-! ### Settings (`settings.ts`)

Only the fields the hub synchronization engine reads are modelled; the
purely presentational fields (`folderDirectoryColor`, `debugLogs`, …) play
no role in the verified code paths. -/

structure HubSettings where
  hubSuffix : String
  previousHubSuffix : String
  hubInsertTitle : String
  skipFolderNames : List String
  skipDotFolders : Bool
  parentLinkForSubfolderHubs : Bool
  autoHideHubLinks : Bool
  removeHiddenBlink : Bool
  insertSeparatorAfterHubLink : Bool
  realTimeUpdating : Bool
  autoCreateSuppressedUntilBuildRefresh : Bool
  deriving Repr, DecidableEq

/-! ### Path rules (`pathRules.ts`) -/

/-- `PathSkipOptions` from `pathRules.ts`. -/
structure PathSkipOptions where
  skipFolderNames : List String
  skipDotFolders : Bool
  deriving Repr, DecidableEq

/-- `pathSkipFromSettings` (defined identically in several source files). -/
def pathSkipFromSettings (s : HubSettings) : PathSkipOptions :=
  { skipFolderNames := s.skipFolderNames, skipDotFolders := s.skipDotFolders }

/-- The JS replacement `path.replace(/^\/|\/$/g, "")`: with the `^`/`$`
anchors and the global flag this removes exactly one leading and one
trailing slash (inner slashes are untouched). -/
def stripOuterSlashes (cs : List Char) : List Char :=
  let cs1 := match cs with
    | '/' :: rest => rest
    | other => other
  match cs1.reverse with
  | '/' :: rest => rest.reverse
  | _ => cs1

/-- `normalized.split("/")` on a character list: split on `'/'`. -/
def splitOnSlash : List Char → List (List Char)
  | [] => [[]]
  | c :: cs =>
    let r := splitOnSlash cs
    if c = '/' then [] :: r
    else
      match r with
      | [] => [[c]]
      | seg :: segs => (c :: seg) :: segs

/-- Path segments as the source computes them:
`normalized.split("/").filter(Boolean)` (empty segments dropped). -/
def pathSegments (path : String) : List String :=
  ((splitOnSlash (stripOuterSlashes path.data)).filter (fun seg => ¬seg.isEmpty)).map
    (fun seg => String.mk seg)

/-- `shouldSkipPath` from `pathRules.ts`: true iff the normalized path is
empty (root), or some segment is an excluded name, or (when
`skipDotFolders`) some segment starts with a dot. -/
def shouldSkipPath (path : String) (options : PathSkipOptions) : Bool :=
  let normalized := stripOuterSlashes path.data
  if normalized.isEmpty then true
  else
    (pathSegments path).any (fun segment =>
      options.skipFolderNames.contains segment ||
        (options.skipDotFolders && segment.data.head? = some '.'))

/-- The JS whitespace class used by `String.prototype.trim` (and by `\s`):
the ASCII whitespace characters plus the Unicode space separators. -/
def jsWhitespaceChars : List Char :=
  [' ', '\t', '\n', '\r', '\x0b', '\x0c',
   '\u00A0', '\u1680', '\u2000', '\u2001', '\u2002', '\u2003',
   '\u2004', '\u2005', '\u2006', '\u2007', '\u2008', '\u2009',
   '\u200A', '\u2028', '\u2029', '\u202F', '\u205F', '\u3000',
   '\uFEFF']

/-- Membership in the JS whitespace class. -/
def isJsWhitespace (c : Char) : Bool := jsWhitespaceChars.contains c

/-- `String.prototype.trim`: drop JS whitespace from both ends. -/
def jsTrim (s : String) : String :=
  String.mk (((s.data.dropWhile isJsWhitespace).reverse.dropWhile
    isJsWhitespace).reverse)

/-- `isRootFolder` from `pathRules.ts`: the path is the vault root iff
stripping one outer slash from each side and trimming leaves nothing. -/
def isRootFolder (folderPath : String) : Bool :=
  (jsTrim (String.mk (stripOuterSlashes folderPath.data))).data.isEmpty

/-- The effective suffix `suffix || "_"`: JS `||` falls back on the empty
string. -/
def effSuffix (suffix : String) : String :=
  if suffix = "" then "_" else suffix

/-- `getHubNameForFolder` from `pathRules.ts`: `folderName + (suffix || "_")`. -/
def getHubNameForFolder (folderName : String) (suffix : String) : String :=
  folderName ++ effSuffix suffix

/-- `getNumberedHubName` from `pathRules.ts`:
`folderName + (suffix || "_") + String(index)`. -/
def getNumberedHubName (folderName : String) (index : Nat) (suffix : String) :
    String :=
  folderName ++ effSuffix suffix ++ toString index

/-- `getNumberedHubPattern` from `pathRules.ts`, as a matcher.  The source
builds `new RegExp("^" + esc(folderName) + esc(suffix || "_") + "\\d+$")`
where `esc` (`escapeRegex`) escapes every regex metacharacter, so the
regex denotes: the whole string is the literal folder name, then the
literal effective suffix, then one or more ASCII digits (`Char.isDigit`
is exactly JS `\d`). -/
def getNumberedHubPattern (folderName : String) (suffix : String)
    (s : String) : Bool :=
  let pre := (getHubNameForFolder folderName suffix).data
  let d := s.data.drop pre.length
  decide (s.data.take pre.length = pre) && !d.isEmpty && d.all Char.isDigit

/-! ### Folders, files and the vault snapshot

`TFolder` is modelled by its identity data: full path and name.  Creation
times come from `adapter.stat(path)` which may fail (`null`), hence an
`Option Int`-valued `stat` function.  `TFile` is modelled by the folder it
sits in, its basename and its current content; its vault path is
`folderPath + "/" + basename + ".md"`. -/

structure Folder where
  path : String
  name : String
  deriving Repr, DecidableEq

structure HFile where
  folderPath : String
  basename : String
  content : String
  deriving Repr, DecidableEq

/-- The vault path of a file (`TFile.path`). -/
def HFile.path (f : HFile) : String :=
  f.folderPath ++ "/" ++ f.basename ++ ".md"

/-- A vault snapshot: the folder tree as enumerated by
`vault.getAllFolders(false)` (root excluded), the `adapter.stat` creation
times, and the files.  The engine never creates, renames or deletes
folders, so all engine operations leave `folders` and `stat` unchanged. -/
structure Vault where
  folders : List Folder
  stat : String → Option Int
  files : List HFile

/-- The file children of a folder, in enumeration order
(`folder.children`, restricted to `TFile` instances). -/
def childrenOf (v : Vault) (folderPath : String) : List HFile :=
  v.files.filter (fun f => f.folderPath = folderPath)

/-! ### Hub registry resolver (`hubForFolder.ts`) -/

/-- `findHubInFolderWithName` from `hubForFolder.ts`: the first file child
whose basename is the base hub name or matches the numbered pattern. -/
def findHubInFolderWithName (v : Vault) (folderPath : String)
    (folderName : String) (settings : HubSettings) : Option HFile :=
  let baseName := getHubNameForFolder folderName settings.hubSuffix
  (childrenOf v folderPath).find? (fun child =>
    child.basename = baseName ||
      getNumberedHubPattern folderName settings.hubSuffix child.basename)

/-- `findHubInFolder` from `hubForFolder.ts`. -/
def findHubInFolder (v : Vault) (folder : Folder) (settings : HubSettings) :
    Option HFile :=
  findHubInFolderWithName v folder.path folder.name settings

/-- The `{ folder, ctime }` record built by `getFoldersWithSameName`,
with `ctime = stat?.ctime ?? 0`. -/
def withCtime (stat : String → Option Int) (f : Folder) : Folder × Int :=
  (f, (stat f.path).getD 0)

/-- The filter of `getFoldersWithSameName`:
`all.filter((f) => f.name === folderName && !shouldSkipPath(f.path, options))`. -/
def sameNameFilter (folderName : String) (options : PathSkipOptions)
    (f : Folder) : Bool :=
  f.name = folderName && !shouldSkipPath f.path options

/-- `getFoldersWithSameName` from `hubForFolder.ts`: all folders with the
given name that are not skipped, sorted ascending by creation time.  The
source sorts with `withStat.sort((a, b) => a.ctime - b.ctime)`;
`Array.prototype.sort` is a stable sort, and `List.insertionSort` with the
non-strict key comparison is exactly the stable sort by that key. -/
def getFoldersWithSameName (allFolders : List Folder)
    (stat : String → Option Int) (folderName : String)
    (options : PathSkipOptions) : List Folder :=
  let sameName := allFolders.filter (sameNameFilter folderName options)
  let withStat := sameName.map (withCtime stat)
  (withStat.insertionSort (fun a b => a.2 ≤ b.2)).map (fun x => x.1)

/-- `getExpectedHubNameForFolder` from `hubForFolder.ts`: undecorated name
when the name group has size at most one (or the folder is missing from
its own group, `findIndex` returning `-1`), else the numbered name at the
group position plus one. -/
def getExpectedHubNameForFolder (allFolders : List Folder)
    (stat : String → Option Int) (folder : Folder)
    (settings : HubSettings) : String :=
  let sameName := getFoldersWithSameName allFolders stat folder.name
    (pathSkipFromSettings settings)
  if sameName.length ≤ 1 then
    getHubNameForFolder folder.name settings.hubSuffix
  else
    match sameName.findIdx? (fun f => f.path = folder.path) with
    | none => getHubNameForFolder folder.name settings.hubSuffix
    | some index => getNumberedHubName folder.name (index + 1) settings.hubSuffix

/-- `getExpectedHubNameForFolder` reads the vault only through the folder
list and the stat function. -/
def expectedHubName (v : Vault) (folder : Folder) (settings : HubSettings) :
    String :=
  getExpectedHubNameForFolder v.folders v.stat folder settings

/-! ### Numbering stabilization waiter (`hubForFolder.ts`)

`waitForNumberedHub` polls an evolving vault: attempt `i` observes the
snapshot `snaps i`.  One polling attempt succeeds when the folder has a
hub whose basename equals the currently-expected name. -/

/-- The check one polling attempt performs on a snapshot: `some hub` iff a
hub is found and its basename equals the expected name. -/
def hubCheckAt (snaps : Nat → Vault) (folder : Folder)
    (settings : HubSettings) (i : Nat) : Option HFile :=
  let v := snaps i
  let expectedName := expectedHubName v folder settings
  match findHubInFolder v folder settings with
  | some hub => if hub.basename = expectedName then some hub else none
  | none => none

/-- The polling loop of `waitForNumberedHub`, by remaining attempts. -/
def waitForNumberedHubFrom (snaps : Nat → Vault) (folder : Folder)
    (settings : HubSettings) (i : Nat) : Nat → Option HFile
  | 0 => none
  | remaining + 1 =>
    match hubCheckAt snaps folder settings i with
    | some hub => some hub
    | none => waitForNumberedHubFrom snaps folder settings (i + 1) remaining

/-- `waitForNumberedHub` from `hubForFolder.ts` (with the default attempt
count unless overridden): run the polling loop from attempt `0`. -/
def waitForNumberedHub (snaps : Nat → Vault) (folder : Folder)
    (settings : HubSettings) (attempts : Nat := WAIT_FOR_HUB_ATTEMPTS) :
    Option HFile :=
  waitForNumberedHubFrom snaps folder settings 0 attempts

/-- `waitForNumberedHub` as called from inside a synchronous engine pass:
the vault does not change between polling attempts, so every attempt
observes the same snapshot. -/
def waitForNumberedHubStatic (v : Vault) (folder : Folder)
    (settings : HubSettings) : Option HFile :=
  waitForNumberedHub (fun _ => v) folder settings

/-! ### Properties of the hub name functions (claims C9, C10) -/

/-- The effective suffix is never the empty string. -/
theorem effSuffix_ne_empty (suffix : String) : effSuffix suffix ≠ "" := by
  unfold effSuffix
  split
  · decide
  · assumption

/-- A string whose character list is empty is the empty string. -/
theorem eq_empty_of_data_nil (s : String) (h : s.data = []) : s = "" :=
  String.ext (by simp [h])

/-- Appending a nonempty string changes a string. -/
theorem append_ne_self (a b : String) (hb : b ≠ "") : a ++ b ≠ a := by
  intro h
  apply hb
  have hd : a.data ++ b.data = a.data := by
    have := congrArg String.data h
    simpa using this
  have hlen := congrArg List.length hd
  simp at hlen
  exact eq_empty_of_data_nil b (List.length_eq_zero.mp hlen)

/-- Claim C9 (amended): for every folder name and suffix, the numbered-hub
pattern matches `s` iff `s` is the folder name, followed by the
*effective* suffix (the configured suffix, or `"_"` when it is empty),
followed by one or more digits; in particular it never matches the
undecorated base hub name for the same folder name and suffix. -/
theorem numberedHubPattern_correct (folderName suffix s : String) :
    (getNumberedHubPattern folderName suffix s = true ↔
      ∃ d : String, d.data ≠ [] ∧ (∀ c ∈ d.data, c.isDigit) ∧
        s = folderName ++ effSuffix suffix ++ d) ∧
    getNumberedHubPattern folderName suffix
      (getHubNameForFolder folderName suffix) = false := by
  have hdata : ∀ d : String, (folderName ++ effSuffix suffix ++ d).data =
      (getHubNameForFolder folderName suffix).data ++ d.data := by
    intro d
    rw [getHubNameForFolder]
    exact String.data_append _ _
  constructor
  · constructor
    · intro h
      unfold getNumberedHubPattern at h
      rw [Bool.and_eq_true, Bool.and_eq_true] at h
      obtain ⟨⟨h1, h2⟩, h3⟩ := h
      have htake : s.data.take (getHubNameForFolder folderName suffix).data.length
          = (getHubNameForFolder folderName suffix).data := of_decide_eq_true h1
      have hne : s.data.drop
          (getHubNameForFolder folderName suffix).data.length ≠ [] := by
        intro hnil
        rw [hnil] at h2
        simp at h2
      refine ⟨String.mk
        (s.data.drop (getHubNameForFolder folderName suffix).data.length),
        hne, ?_, ?_⟩
      · intro c hc
        exact List.all_eq_true.mp h3 c hc
      · apply String.ext
        rw [hdata]
        conv_lhs => rw [← List.take_append_drop
          ((getHubNameForFolder folderName suffix).data.length) s.data]
        rw [htake]
    · rintro ⟨d, hne, hdig, rfl⟩
      unfold getNumberedHubPattern
      rw [Bool.and_eq_true, Bool.and_eq_true]
      refine ⟨⟨decide_eq_true ?_, ?_⟩, ?_⟩
      · rw [hdata, List.take_left]
      · rw [hdata, List.drop_left]
        cases hd : d.data with
        | nil => exact absurd hd hne
        | cons c cs => simp
      · rw [hdata, List.drop_left]
        exact List.all_eq_true.mpr hdig
  · unfold getNumberedHubPattern
    simp [List.drop_length]

/-- Claim C9's original universally-quantified form is false for the empty
suffix: `"X5"` decomposes as folder name `"X"`, suffix `""`, digits `"5"`,
yet the pattern (which falls back to the underscore) does not match it. -/
theorem numberedHubPattern_empty_suffix_cex :
    getNumberedHubPattern "X" "" "X5" = false ∧
    "X5" = "X" ++ "" ++ "5" ∧
    ("5" : String).data ≠ [] ∧ (∀ c ∈ ("5" : String).data, c.isDigit) := by
  refine ⟨by decide, rfl, by decide, by decide⟩

/-- Claim C10: an empty configured suffix falls back to the underscore in
all three name functions, and no hub name (base or numbered) ever equals
the bare folder name. -/
theorem empty_suffix_fallback (folderName : String) (index : Nat) :
    getHubNameForFolder folderName "" = getHubNameForFolder folderName "_" ∧
    getNumberedHubName folderName index "" =
      getNumberedHubName folderName index "_" ∧
    (∀ s, getNumberedHubPattern folderName "" s =
      getNumberedHubPattern folderName "_" s) ∧
    (∀ suffix, getHubNameForFolder folderName suffix ≠ folderName ∧
      getNumberedHubName folderName index suffix ≠ folderName) := by
  refine ⟨rfl, rfl, fun s => rfl, fun suffix => ⟨?_, ?_⟩⟩
  · exact append_ne_self folderName (effSuffix suffix) (effSuffix_ne_empty suffix)
  · rw [getNumberedHubName, String.append_assoc]
    apply append_ne_self
    intro h
    apply effSuffix_ne_empty suffix
    have hd := congrArg String.data h
    simp [String.data_append] at hd
    exact eq_empty_of_data_nil _ hd.1

/-! ### Ordering properties of the name group (claims C6, C1) -/

/-- The creation-time key used for ordering: `stat(path)?.ctime ?? 0`. -/
def folderCtime (stat : String → Option Int) (f : Folder) : Int :=
  (stat f.path).getD 0

/-- Two sorted permutations of each other with pairwise-distinct keys are
equal (antisymmetry can fail on ties, so distinctness is needed). -/
theorem sorted_perm_nodup_key_eq {α : Type} (key : α → Int) :
    ∀ (l₁ l₂ : List α), l₁.Perm l₂ →
      l₁.Sorted (fun a b => key a ≤ key b) →
      l₂.Sorted (fun a b => key a ≤ key b) →
      (l₁.map key).Nodup → l₁ = l₂
  | [], l₂, hp, _, _, _ => (hp.nil_eq).symm ▸ rfl
  | a :: t₁, [], hp, _, _, _ => absurd hp.length_eq (by simp)
  | a :: t₁, b :: t₂, hp, hs₁, hs₂, hnd => by
    have hab : a = b := by
      by_contra hne
      have ha2 : a ∈ b :: t₂ := hp.subset (List.mem_cons_self a t₁)
      have ha2' : a ∈ t₂ := by
        cases ha2 with
        | head => exact absurd rfl hne
        | tail _ h => exact h
      have hb1 : b ∈ a :: t₁ := hp.symm.subset (List.mem_cons_self b t₂)
      have hb1' : b ∈ t₁ := by
        cases hb1 with
        | head => exact absurd rfl (fun h => hne h.symm)
        | tail _ h => exact h
      have h1 : key a ≤ key b := List.rel_of_sorted_cons hs₁ b hb1'
      have h2 : key b ≤ key a := List.rel_of_sorted_cons hs₂ a ha2'
      have hkey : key a = key b := le_antisymm h1 h2
      have : key a ∈ t₁.map key := hkey ▸ List.mem_map_of_mem key hb1'
      exact (List.nodup_cons.mp hnd).1 this
    subst hab
    have htl := sorted_perm_nodup_key_eq key t₁ t₂ hp.cons_inv
      hs₁.of_cons hs₂.of_cons (List.nodup_cons.mp hnd).2
    rw [htl]

/-- Structural properties of `getFoldersWithSameName`: the result is a
permutation of the filtered enumeration, it is sorted ascending by the
creation-time key, and two same-keyed folders keep their enumeration
order (the sort is stable). -/
theorem getFoldersWithSameName_spec (allFolders : List Folder)
    (stat : String → Option Int) (folderName : String)
    (options : PathSkipOptions) :
    (getFoldersWithSameName allFolders stat folderName options).Perm
      (allFolders.filter (sameNameFilter folderName options)) ∧
    (getFoldersWithSameName allFolders stat folderName options).Sorted
      (fun f g => folderCtime stat f ≤ folderCtime stat g) ∧
    (∀ f g : Folder, folderCtime stat f = folderCtime stat g →
      [f, g].Sublist (allFolders.filter (sameNameFilter folderName options)) →
      [f, g].Sublist (getFoldersWithSameName allFolders stat folderName options)) := by
  letI : IsTotal (Folder × Int) (fun a b => a.2 ≤ b.2) :=
    ⟨fun a b => Int.le_total a.2 b.2⟩
  letI : IsTrans (Folder × Int) (fun a b => a.2 ≤ b.2) :=
    ⟨fun a b c h1 h2 => le_trans h1 h2⟩
  have hfst : ∀ x ∈ ((allFolders.filter (sameNameFilter folderName options)).map
      (withCtime stat)).insertionSort (fun a b => a.2 ≤ b.2),
      x.2 = folderCtime stat x.1 := by
    intro x hx
    have hx' : x ∈ (allFolders.filter (sameNameFilter folderName options)).map
        (withCtime stat) :=
      (List.perm_insertionSort (fun a b => a.2 ≤ b.2) _).subset hx
    obtain ⟨f, _, rfl⟩ := List.mem_map.mp hx'
    rfl
  refine ⟨?_, ?_, ?_⟩
  · rw [getFoldersWithSameName]
    have hp := (List.perm_insertionSort (fun a b : Folder × Int => a.2 ≤ b.2)
      ((allFolders.filter (sameNameFilter folderName options)).map
        (withCtime stat))).map (fun x : Folder × Int => x.1)
    have hcomp : ((fun x : Folder × Int => x.1) ∘ withCtime stat) =
        (id : Folder → Folder) := rfl
    simpa [List.map_map, hcomp] using hp
  · rw [getFoldersWithSameName]
    refine List.pairwise_map.mpr ?_
    refine List.Pairwise.imp_of_mem ?_
      (List.sorted_insertionSort (fun a b : Folder × Int => a.2 ≤ b.2) _)
    intro a b ha hb hle
    rw [← hfst a ha, ← hfst b hb]
    exact hle
  · intro f g hkey hsub
    have hsubp : [withCtime stat f, withCtime stat g].Sublist
        ((allFolders.filter (sameNameFilter folderName options)).map
          (withCtime stat)) := by
      have := hsub.map (withCtime stat)
      simpa using this
    have hpair := @List.pair_sublist_insertionSort (Folder × Int)
      (fun a b => a.2 ≤ b.2) (fun a b => Int.decLe a.2 b.2)
      (withCtime stat f) (withCtime stat g) _ (le_of_eq hkey) hsubp
    have := hpair.map (fun x : Folder × Int => x.1)
    simpa [getFoldersWithSameName] using this

/-- The name group is fully determined by any sorted,
distinct-key witness list: if `L` is a permutation of the filtered
enumeration, sorted by creation time with pairwise-distinct keys, then
`getFoldersWithSameName` returns exactly `L`. -/
theorem getFoldersWithSameName_eq_of_sorted (allFolders : List Folder)
    (stat : String → Option Int) (folderName : String)
    (options : PathSkipOptions) (L : List Folder)
    (hperm : (allFolders.filter (sameNameFilter folderName options)).Perm L)
    (hsorted : L.Sorted (fun f g => folderCtime stat f ≤ folderCtime stat g))
    (hnd : (L.map (folderCtime stat)).Nodup) :
    getFoldersWithSameName allFolders stat folderName options = L := by
  obtain ⟨hp, hs, _⟩ := getFoldersWithSameName_spec allFolders stat folderName options
  have hperm' : (getFoldersWithSameName allFolders stat folderName options).Perm L :=
    hp.trans hperm
  exact sorted_perm_nodup_key_eq (folderCtime stat) _ _ hperm' hs hsorted
    ((hperm'.map (folderCtime stat)).nodup_iff.mpr hnd)

/-- Claim C6's determinism assertion is false on the code: the sort has no
path tie-break, so two enumerations of the same two folders (identical
names, identical raw-zero creation times) yield different orderings. -/
theorem sameNameGroup_enumeration_cex :
    (([(⟨"b/X", "X"⟩ : Folder), ⟨"a/X", "X"⟩]).Perm
      [(⟨"a/X", "X"⟩ : Folder), ⟨"b/X", "X"⟩]) ∧
    getFoldersWithSameName [⟨"a/X", "X"⟩, ⟨"b/X", "X"⟩] (fun _ => none) "X"
      ⟨[], false⟩ = [⟨"a/X", "X"⟩, ⟨"b/X", "X"⟩] ∧
    getFoldersWithSameName [⟨"b/X", "X"⟩, ⟨"a/X", "X"⟩] (fun _ => none) "X"
      ⟨[], false⟩ = [⟨"b/X", "X"⟩, ⟨"a/X", "X"⟩] ∧
    getFoldersWithSameName [⟨"a/X", "X"⟩, ⟨"b/X", "X"⟩] (fun _ => none) "X"
      ⟨[], false⟩ ≠
      getFoldersWithSameName [⟨"b/X", "X"⟩, ⟨"a/X", "X"⟩] (fun _ => none) "X"
      ⟨[], false⟩ := by
  refine ⟨by decide, by decide, by decide, by decide⟩

/-- Claim C6 (amended): `getFoldersWithSameName` returns exactly the
non-excluded folders with the given name, sorted ascending by creation
timestamp (raw zero when unavailable); ties are left in storage
enumeration order (the sort is stable, there is no path tie-break), so the
ordering is a deterministic function of the set of folders and their
creation times alone only when the creation times in the group are
pairwise distinct. -/
theorem getFoldersWithSameName_correct (allFolders allFolders' : List Folder)
    (stat : String → Option Int) (folderName : String)
    (options : PathSkipOptions) :
    (∀ f ∈ getFoldersWithSameName allFolders stat folderName options,
      f.name = folderName ∧ shouldSkipPath f.path options = false) ∧
    (getFoldersWithSameName allFolders stat folderName options).Perm
      (allFolders.filter (sameNameFilter folderName options)) ∧
    (getFoldersWithSameName allFolders stat folderName options).Sorted
      (fun f g => folderCtime stat f ≤ folderCtime stat g) ∧
    (∀ f g : Folder, folderCtime stat f = folderCtime stat g →
      [f, g].Sublist (allFolders.filter (sameNameFilter folderName options)) →
      [f, g].Sublist (getFoldersWithSameName allFolders stat folderName options)) ∧
    (allFolders.Perm allFolders' →
      ((allFolders.filter (sameNameFilter folderName options)).map
        (folderCtime stat)).Nodup →
      getFoldersWithSameName allFolders stat folderName options =
        getFoldersWithSameName allFolders' stat folderName options) := by
  obtain ⟨hp, hs, hstable⟩ :=
    getFoldersWithSameName_spec allFolders stat folderName options
  refine ⟨?_, hp, hs, hstable, ?_⟩
  · intro f hf
    have hf' : f ∈ allFolders.filter (sameNameFilter folderName options) :=
      hp.subset hf
    have := List.of_mem_filter hf'
    rw [sameNameFilter, Bool.and_eq_true, Bool.not_eq_true'] at this
    exact ⟨by simpa using this.1, this.2⟩
  · intro hpe hnd
    refine (getFoldersWithSameName_eq_of_sorted allFolders' stat folderName
      options (getFoldersWithSameName allFolders stat folderName options)
      ?_ hs ?_).symm
    · exact ((hpe.symm.filter (sameNameFilter folderName options)).trans
        hp.symm)
    · exact ((hp.map (folderCtime stat)).nodup_iff).mpr hnd

/-- Witness for `getFoldersWithSameName_correct`: on two concrete
enumerations of the same two folders with distinct creation times, the
determinism clause applies and both orderings agree. -/
theorem getFoldersWithSameName_correct_witness :
    getFoldersWithSameName [⟨"a/X", "X"⟩, ⟨"b/X", "X"⟩]
      (fun p => if p = "a/X" then some 10 else some 5) "X" ⟨[], false⟩ =
    getFoldersWithSameName [⟨"b/X", "X"⟩, ⟨"a/X", "X"⟩]
      (fun p => if p = "a/X" then some 10 else some 5) "X" ⟨[], false⟩ :=
  (getFoldersWithSameName_correct [⟨"a/X", "X"⟩, ⟨"b/X", "X"⟩]
    [⟨"b/X", "X"⟩, ⟨"a/X", "X"⟩]
    (fun p => if p = "a/X" then some 10 else some 5) "X"
    ⟨[], false⟩).2.2.2.2 (by decide) (by decide)

/-- Claim C1: for every settings (any configured suffix and exclusion
list), the expected hub name is the undecorated name when the name group
has size at most one, and otherwise the numbered name at the group
position (located by path) plus one; and concretely, for three
containers named `"X"` created at `t1 < t2 < t3` with suffix `"_"` the
expected hub names are `X_1`, `X_2`, `X_3` regardless of enumeration
order, and after deleting the middle container the third one's expected
name becomes `X_2`. -/
theorem expectedHubName_numbering :
    (∀ (settings : HubSettings) (g : Folder) (gs : List Folder)
      (gstat : String → Option Int),
      (getFoldersWithSameName gs gstat g.name
        (pathSkipFromSettings settings)).length ≤ 1 →
      getExpectedHubNameForFolder gs gstat g settings =
        getHubNameForFolder g.name settings.hubSuffix) ∧
    (∀ (settings : HubSettings) (g : Folder) (gs : List Folder)
      (gstat : String → Option Int) (i : Nat),
      1 < (getFoldersWithSameName gs gstat g.name
        (pathSkipFromSettings settings)).length →
      (getFoldersWithSameName gs gstat g.name
        (pathSkipFromSettings settings)).findIdx?
          (fun f => f.path = g.path) = some i →
      getExpectedHubNameForFolder gs gstat g settings =
        getNumberedHubName g.name (i + 1) settings.hubSuffix) ∧
    (∀ (settings : HubSettings) (allFolders allFolders' : List Folder)
      (stat : String → Option Int) (f1 f2 f3 : Folder) (t1 t2 t3 : Int),
      settings.hubSuffix = "_" →
      f1.name = "X" → f2.name = "X" → f3.name = "X" →
      f1.path ≠ f2.path → f1.path ≠ f3.path → f2.path ≠ f3.path →
      stat f1.path = some t1 → stat f2.path = some t2 →
      stat f3.path = some t3 → t1 < t2 → t2 < t3 →
      (allFolders.filter (sameNameFilter "X"
        (pathSkipFromSettings settings))).Perm [f1, f2, f3] →
      (allFolders'.filter (sameNameFilter "X"
        (pathSkipFromSettings settings))).Perm [f1, f3] →
      getExpectedHubNameForFolder allFolders stat f1 settings = "X_1" ∧
      getExpectedHubNameForFolder allFolders stat f2 settings = "X_2" ∧
      getExpectedHubNameForFolder allFolders stat f3 settings = "X_3" ∧
      getExpectedHubNameForFolder allFolders' stat f3 settings = "X_2") := by
  refine ⟨?_, ?_, ?_⟩
  · intro settings g gs gstat hlen
    rw [getExpectedHubNameForFolder, if_pos hlen]
  · intro settings g gs gstat i hlen hidx
    rw [getExpectedHubNameForFolder, if_neg (by omega), hidx]
  · intro settings allFolders allFolders' stat f1 f2 f3 t1 t2 t3
      hsuffix hn1 hn2 hn3 hp12 hp13 hp23 hs1 hs2 hs3 ht12 ht23 hfil hfil'
    have hkey1 : folderCtime stat f1 = t1 := by simp [folderCtime, hs1]
    have hkey2 : folderCtime stat f2 = t2 := by simp [folderCtime, hs2]
    have hkey3 : folderCtime stat f3 = t3 := by simp [folderCtime, hs3]
    have h12 : folderCtime stat f1 ≤ folderCtime stat f2 := by
      rw [hkey1, hkey2]; exact le_of_lt ht12
    have h23 : folderCtime stat f2 ≤ folderCtime stat f3 := by
      rw [hkey2, hkey3]; exact le_of_lt ht23
    have h13 : folderCtime stat f1 ≤ folderCtime stat f3 := by
      rw [hkey1, hkey3]; exact le_of_lt (lt_trans ht12 ht23)
    have hgroup : getFoldersWithSameName allFolders stat "X"
        (pathSkipFromSettings settings) = [f1, f2, f3] := by
      refine getFoldersWithSameName_eq_of_sorted _ _ _ _ _ hfil ?_ ?_
      · refine List.sorted_cons.mpr ⟨?_, List.sorted_cons.mpr
          ⟨?_, List.sorted_singleton _⟩⟩
        · intro b hb
          rcases List.mem_cons.mp hb with rfl | hb
          · exact h12
          · rcases List.mem_singleton.mp hb with rfl
            exact h13
        · intro b hb
          rcases List.mem_singleton.mp hb with rfl
          exact h23
      · rw [List.map_cons, List.map_cons, List.map_singleton,
          hkey1, hkey2, hkey3]
        refine List.nodup_cons.mpr ⟨?_, List.nodup_cons.mpr
          ⟨?_, List.nodup_singleton _⟩⟩
        · simp [ne_of_lt ht12, ne_of_lt (lt_trans ht12 ht23)]
        · simp [ne_of_lt ht23]
    have hgroup' : getFoldersWithSameName allFolders' stat "X"
        (pathSkipFromSettings settings) = [f1, f3] := by
      refine getFoldersWithSameName_eq_of_sorted _ _ _ _ _ hfil' ?_ ?_
      · refine List.sorted_cons.mpr ⟨?_, List.sorted_singleton _⟩
        intro b hb
        rcases List.mem_singleton.mp hb with rfl
        exact h13
      · rw [List.map_cons, List.map_singleton, hkey1, hkey3]
        simp [ne_of_lt (lt_trans ht12 ht23)]
    refine ⟨?_, ?_, ?_, ?_⟩
    · rw [getExpectedHubNameForFolder, hn1, hgroup]
      rw [if_neg (by simp)]
      rw [show ([f1, f2, f3].findIdx? (fun f => f.path = f1.path)) = some 0 by
        simp [List.findIdx?_cons]]
      rw [hsuffix]
      decide
    · rw [getExpectedHubNameForFolder, hn2, hgroup]
      rw [if_neg (by simp)]
      rw [show ([f1, f2, f3].findIdx? (fun f => f.path = f2.path)) = some 1 by
        simp [List.findIdx?_cons, hp12]]
      rw [hsuffix]
      decide
    · rw [getExpectedHubNameForFolder, hn3, hgroup]
      rw [if_neg (by simp)]
      rw [show ([f1, f2, f3].findIdx? (fun f => f.path = f3.path)) = some 2 by
        simp [List.findIdx?_cons, hp13, hp23]]
      rw [hsuffix]
      decide
    · rw [getExpectedHubNameForFolder, hn3, hgroup']
      rw [if_neg (by simp)]
      rw [show ([f1, f3].findIdx? (fun f => f.path = f3.path)) = some 1 by
        simp [List.findIdx?_cons, hp13]]
      rw [hsuffix]
      decide

/-- Witness for `expectedHubName_numbering`: the singleton clause at a
lone folder `Y` with a non-underscore suffix, the numbered clause at the
same suffix, and the concrete scenario: three folders named `X` (plus an
excluded dot-folder), enumerated out of creation order, get the expected
names `X_1`, `X_2`, `X_3`, and after the middle one is gone the third
becomes `X_2`. -/
theorem expectedHubName_numbering_witness :
    getExpectedHubNameForFolder [⟨"A/Y", "Y"⟩]
      (fun _ => some 1) ⟨"A/Y", "Y"⟩
      ⟨"-", "-", "## DIRECTORY", [".trash"], true, true, false, false, true,
        true, false⟩ =
      getHubNameForFolder "Y" "-" ∧
    getExpectedHubNameForFolder [⟨"A/Y", "Y"⟩, ⟨"B/Y", "Y"⟩]
      (fun p => if p = "A/Y" then some 1 else some 2) ⟨"B/Y", "Y"⟩
      ⟨"-", "-", "## DIRECTORY", [".trash"], true, true, false, false, true,
        true, false⟩ =
      getNumberedHubName "Y" 2 "-" ∧
    getExpectedHubNameForFolder
      [⟨"C/X", "X"⟩, ⟨"A/X", "X"⟩, ⟨"B/X", "X"⟩, ⟨".git/X", "X"⟩]
      (fun p => if p = "A/X" then some 1 else if p = "B/X" then some 2
        else some 3)
      ⟨"A/X", "X"⟩
      ⟨"_", "_", "## DIRECTORY", [".trash"], true, true, false, false, true,
        true, false⟩ = "X_1" ∧
    getExpectedHubNameForFolder
      [⟨"C/X", "X"⟩, ⟨"A/X", "X"⟩, ⟨"B/X", "X"⟩, ⟨".git/X", "X"⟩]
      (fun p => if p = "A/X" then some 1 else if p = "B/X" then some 2
        else some 3)
      ⟨"B/X", "X"⟩
      ⟨"_", "_", "## DIRECTORY", [".trash"], true, true, false, false, true,
        true, false⟩ = "X_2" ∧
    getExpectedHubNameForFolder
      [⟨"C/X", "X"⟩, ⟨"A/X", "X"⟩, ⟨"B/X", "X"⟩, ⟨".git/X", "X"⟩]
      (fun p => if p = "A/X" then some 1 else if p = "B/X" then some 2
        else some 3)
      ⟨"C/X", "X"⟩
      ⟨"_", "_", "## DIRECTORY", [".trash"], true, true, false, false, true,
        true, false⟩ = "X_3" ∧
    getExpectedHubNameForFolder [⟨"C/X", "X"⟩, ⟨"A/X", "X"⟩]
      (fun p => if p = "A/X" then some 1 else if p = "B/X" then some 2
        else some 3)
      ⟨"C/X", "X"⟩
      ⟨"_", "_", "## DIRECTORY", [".trash"], true, true, false, false, true,
        true, false⟩ = "X_2" := by
  have h := expectedHubName_numbering
  have hsc := h.2.2
    ⟨"_", "_", "## DIRECTORY", [".trash"], true, true, false, false, true,
      true, false⟩
    [⟨"C/X", "X"⟩, ⟨"A/X", "X"⟩, ⟨"B/X", "X"⟩, ⟨".git/X", "X"⟩]
    [⟨"C/X", "X"⟩, ⟨"A/X", "X"⟩]
    (fun p => if p = "A/X" then some 1 else if p = "B/X" then some 2
      else some 3)
    ⟨"A/X", "X"⟩ ⟨"B/X", "X"⟩ ⟨"C/X", "X"⟩ 1 2 3
    rfl rfl rfl rfl (by decide) (by decide) (by decide) (by decide)
    (by decide) (by decide) (by decide) (by decide) (by decide) (by decide)
  exact ⟨h.1
      ⟨"-", "-", "## DIRECTORY", [".trash"], true, true, false, false, true,
        true, false⟩
      ⟨"A/Y", "Y"⟩ [⟨"A/Y", "Y"⟩] (fun _ => some 1) (by decide),
    h.2.1
      ⟨"-", "-", "## DIRECTORY", [".trash"], true, true, false, false, true,
        true, false⟩
      ⟨"B/Y", "Y"⟩ [⟨"A/Y", "Y"⟩, ⟨"B/Y", "Y"⟩]
      (fun p => if p = "A/Y" then some 1 else some 2) 1 (by decide)
      (by decide),
    hsc.1, hsc.2.1, hsc.2.2.1, hsc.2.2.2⟩

/-! ### Termination and bound of the stabilization waiter (claim C8) -/

/-- A successful polling check returns the found hub, and its basename is
the then-expected hub name. -/
theorem hubCheckAt_some (snaps : Nat → Vault) (folder : Folder)
    (settings : HubSettings) (i : Nat) (hub : HFile)
    (h : hubCheckAt snaps folder settings i = some hub) :
    findHubInFolder (snaps i) folder settings = some hub ∧
    hub.basename = expectedHubName (snaps i) folder settings := by
  rw [hubCheckAt] at h
  rcases hfind : findHubInFolder (snaps i) folder settings with _ | found
  · rw [hfind] at h
    cases h
  · rw [hfind] at h
    dsimp only at h
    by_cases hb : found.basename = expectedHubName (snaps i) folder settings
    · rw [if_pos hb] at h
      cases h
      exact ⟨rfl, hb⟩
    · rw [if_neg hb] at h
      cases h

/-- The polling loop from index `i` with the given fuel returns `none` iff
every check in the window fails. -/
theorem waitFrom_none_iff (snaps : Nat → Vault) (folder : Folder)
    (settings : HubSettings) :
    ∀ (fuel i : Nat),
      (waitForNumberedHubFrom snaps folder settings i fuel = none ↔
        ∀ j, i ≤ j → j < i + fuel → hubCheckAt snaps folder settings j = none)
  | 0, i => by
    constructor
    · intro _ j h1 h2
      omega
    · intro _
      rfl
  | fuel + 1, i => by
    rw [waitForNumberedHubFrom]
    rcases hchk : hubCheckAt snaps folder settings i with _ | hub
    · rw [waitFrom_none_iff snaps folder settings fuel (i + 1)]
      constructor
      · intro h j h1 h2
        rcases Nat.eq_or_lt_of_le h1 with rfl | h1'
        · exact hchk
        · exact h j h1' (by omega)
      · intro h j h1 h2
        exact h j (by omega) (by omega)
    · simp only [Option.some_ne_none, false_iff]
      intro h
      exact absurd hchk (by rw [h i le_rfl (by omega)]; exact Option.noConfusion)

/-- The polling loop from index `i` succeeds only through the first
succeeding check in its window. -/
theorem waitFrom_some (snaps : Nat → Vault) (folder : Folder)
    (settings : HubSettings) :
    ∀ (fuel i : Nat) (hub : HFile),
      waitForNumberedHubFrom snaps folder settings i fuel = some hub →
      ∃ j, i ≤ j ∧ j < i + fuel ∧
        hubCheckAt snaps folder settings j = some hub ∧
        ∀ k, i ≤ k → k < j → hubCheckAt snaps folder settings k = none
  | 0, i, hub => by
    intro h
    cases h
  | fuel + 1, i, hub => by
    rw [waitForNumberedHubFrom]
    rcases hchk : hubCheckAt snaps folder settings i with _ | found
    · intro h
      obtain ⟨j, h1, h2, h3, h4⟩ :=
        waitFrom_some snaps folder settings fuel (i + 1) hub h
      refine ⟨j, by omega, by omega, h3, ?_⟩
      intro k hk1 hk2
      rcases Nat.eq_or_lt_of_le hk1 with rfl | hk1'
      · exact hchk
      · exact h4 k hk1' hk2
    · intro h
      cases h
      exact ⟨i, le_rfl, by omega, hchk, fun k hk1 hk2 => absurd hk1 (by omega)⟩

/-- Claim C8: `waitForNumberedHub` is bounded by its attempt count
(`WAIT_FOR_HUB_ATTEMPTS = 60` by default): it returns `none` exactly when
no polling attempt below the bound observes a hub named as currently
expected, and when it returns a hub, that hub was observed by the first
succeeding attempt below the bound and its basename equals the
then-expected hub name. -/
theorem waitForNumberedHub_bounded (snaps : Nat → Vault) (folder : Folder)
    (settings : HubSettings) (attempts : Nat) :
    WAIT_FOR_HUB_ATTEMPTS = 60 ∧
    (waitForNumberedHub snaps folder settings attempts = none ↔
      ∀ i < attempts, hubCheckAt snaps folder settings i = none) ∧
    (∀ hub, waitForNumberedHub snaps folder settings attempts = some hub →
      ∃ i < attempts, hubCheckAt snaps folder settings i = some hub ∧
        findHubInFolder (snaps i) folder settings = some hub ∧
        hub.basename = expectedHubName (snaps i) folder settings ∧
        ∀ j < i, hubCheckAt snaps folder settings j = none) := by
  refine ⟨rfl, ?_, ?_⟩
  · rw [waitForNumberedHub, waitFrom_none_iff]
    constructor
    · intro h i hi
      exact h i (by omega) (by omega)
    · intro h j _ hj
      exact h j (by omega)
  · intro hub h
    obtain ⟨j, _, h2, h3, h4⟩ :=
      waitFrom_some snaps folder settings attempts 0 hub h
    obtain ⟨hfind, hname⟩ := hubCheckAt_some snaps folder settings j hub h3
    exact ⟨j, by omega, h3, hfind, hname, fun k hk => h4 k (by omega) hk⟩

/-- Witness for `waitForNumberedHub_bounded`: with a hub named `A_`
appearing in folder `A` from the third snapshot on, the wait finds it and
the characterization locates the first succeeding attempt. -/
theorem waitForNumberedHub_bounded_witness :
    waitForNumberedHub
      (fun i => if i < 2 then ⟨[⟨"A", "A"⟩], fun _ => some 0, []⟩
        else ⟨[⟨"A", "A"⟩], fun _ => some 0, [⟨"A", "A_", "x"⟩]⟩)
      ⟨"A", "A"⟩
      ⟨"_", "_", "## DIRECTORY", [".trash"], true, true, false, false, true,
        true, false⟩ = some ⟨"A", "A_", "x"⟩ ∧
    (∃ i < WAIT_FOR_HUB_ATTEMPTS,
      hubCheckAt
        (fun i => if i < 2 then ⟨[⟨"A", "A"⟩], fun _ => some 0, []⟩
          else ⟨[⟨"A", "A"⟩], fun _ => some 0, [⟨"A", "A_", "x"⟩]⟩)
        ⟨"A", "A"⟩
        ⟨"_", "_", "## DIRECTORY", [".trash"], true, true, false, false, true,
          true, false⟩ i = some ⟨"A", "A_", "x"⟩ ∧
      findHubInFolder
        (if i < 2 then ⟨[⟨"A", "A"⟩], fun _ => some 0, []⟩
          else ⟨[⟨"A", "A"⟩], fun _ => some 0, [⟨"A", "A_", "x"⟩]⟩)
        ⟨"A", "A"⟩
        ⟨"_", "_", "## DIRECTORY", [".trash"], true, true, false, false, true,
          true, false⟩ = some ⟨"A", "A_", "x"⟩ ∧
      (⟨"A", "A_", "x"⟩ : HFile).basename =
        expectedHubName
          (if i < 2 then ⟨[⟨"A", "A"⟩], fun _ => some 0, []⟩
            else ⟨[⟨"A", "A"⟩], fun _ => some 0, [⟨"A", "A_", "x"⟩]⟩)
          ⟨"A", "A"⟩
          ⟨"_", "_", "## DIRECTORY", [".trash"], true, true, false, false,
            true, true, false⟩ ∧
      ∀ j < i, hubCheckAt
        (fun i => if i < 2 then ⟨[⟨"A", "A"⟩], fun _ => some 0, []⟩
          else ⟨[⟨"A", "A"⟩], fun _ => some 0, [⟨"A", "A_", "x"⟩]⟩)
        ⟨"A", "A"⟩
        ⟨"_", "_", "## DIRECTORY", [".trash"], true, true, false, false, true,
          true, false⟩ j = none) := by
  refine ⟨by decide, ?_⟩
  exact (waitForNumberedHub_bounded
    (fun i => if i < 2 then ⟨[⟨"A", "A"⟩], fun _ => some 0, []⟩
      else ⟨[⟨"A", "A"⟩], fun _ => some 0, [⟨"A", "A_", "x"⟩]⟩)
    ⟨"A", "A"⟩
    ⟨"_", "_", "## DIRECTORY", [".trash"], true, true, false, false, true,
      true, false⟩ WAIT_FOR_HUB_ATTEMPTS).2.2 ⟨"A", "A_", "x"⟩ (by decide)

/-! ### Lines of a document

`content.split("\n")` and `lines.join("\n")`, embedded on character
lists.  JS `split` on a single character never returns an empty array:
`"".split("\n")` is `[""]`. -/

def splitNl : List Char → List (List Char)
  | [] => [[]]
  | c :: cs =>
    if c = '\n' then [] :: splitNl cs
    else
      match splitNl cs with
      | [] => [[c]]
      | seg :: segs => (c :: seg) :: segs

def joinNl : List (List Char) → List Char
  | [] => []
  | [l] => l
  | l :: ls => l ++ '\n' :: joinNl ls

/-- `content.split("\n")` as a list of strings. -/
def linesOf (s : String) : List String :=
  (splitNl s.data).map (fun cs => String.mk cs)

/-- `lines.join("\n")`. -/
def joinLines (ls : List String) : String :=
  String.mk (joinNl (ls.map String.data))

theorem splitNl_ne_nil (cs : List Char) : splitNl cs ≠ [] := by
  cases cs with
  | nil => simp [splitNl]
  | cons c cs =>
    rw [splitNl]
    split
    · simp
    · rcases h : splitNl cs with _ | ⟨seg, segs⟩ <;> simp [h]

theorem joinNl_cons (l : List Char) (ls : List (List Char)) (h : ls ≠ []) :
    joinNl (l :: ls) = l ++ '\n' :: joinNl ls := by
  cases ls with
  | nil => exact absurd rfl h
  | cons a as => rfl

theorem joinNl_splitNl (cs : List Char) : joinNl (splitNl cs) = cs := by
  induction cs with
  | nil => rfl
  | cons c cs ih =>
    rw [splitNl]
    by_cases hc : c = '\n'
    · rw [if_pos hc, joinNl_cons _ _ (splitNl_ne_nil cs), ih, hc]
      rfl
    · rw [if_neg hc]
      rcases h : splitNl cs with _ | ⟨seg, segs⟩
      · exact absurd h (splitNl_ne_nil cs)
      · rw [h] at ih
        cases segs with
        | nil =>
          simp only [joinNl] at ih ⊢
          rw [ih]
        | cons s2 ss =>
          rw [joinNl_cons _ _ (by simp), List.cons_append]
          rw [joinNl_cons _ _ (by simp)] at ih
          rw [ih]

theorem joinNl_append (xs ys : List (List Char)) (hxs : xs ≠ [])
    (hys : ys ≠ []) :
    joinNl (xs ++ ys) = joinNl xs ++ '\n' :: joinNl ys := by
  induction xs with
  | nil => exact absurd rfl hxs
  | cons x xs ih =>
    cases xs with
    | nil =>
      rw [List.singleton_append, joinNl_cons _ _ hys]
      rfl
    | cons x2 xs2 =>
      rw [List.cons_append, joinNl_cons _ _ (by simp),
        joinNl_cons _ _ (by simp), ih (by simp)]
      simp

/-- Dropping leading lines always leaves a literal suffix of the document. -/
theorem joinNl_drop_suffix (cs : List Char) (k : Nat) :
    ∃ pre : List Char, cs = pre ++ joinNl ((splitNl cs).drop k) := by
  rcases Nat.eq_zero_or_pos k with rfl | hk
  · exact ⟨[], by simp [joinNl_splitNl]⟩
  rcases hd : (splitNl cs).drop k with _ | ⟨seg, segs⟩
  · exact ⟨cs, by simp [joinNl]⟩
  have hklt : k < (splitNl cs).length := by
    by_contra hge
    rw [List.drop_eq_nil_of_le (by omega)] at hd
    cases hd
  have htkne : (splitNl cs).take k ≠ [] := by
    intro hnil
    have hlt := congrArg List.length hnil
    rw [List.length_take] at hlt
    have hpos : 0 < min k (splitNl cs).length := lt_min hk (by omega)
    rw [hlt] at hpos
    simp at hpos
  have h1 : cs = joinNl ((splitNl cs).take k ++ (splitNl cs).drop k) := by
    rw [List.take_append_drop, joinNl_splitNl]
  refine ⟨joinNl ((splitNl cs).take k) ++ ['\n'], ?_⟩
  conv_lhs => rw [h1, hd]
  rw [joinNl_append _ _ htkne (by simp)]
  simp

/-! ### Vault storage operations

The engine's writes.  Each operation is paired with a write count in the
engine functions below.  `setWriteLock` (called before every write) only
feeds the suppressor consulted by the event handlers; it does not change
the tree, so the lock table is modelled separately where the handlers
need it. -/

/-- Read a file's current content (`vault.read`). -/
def vRead (v : Vault) (fp b : String) : Option String :=
  (v.files.find? (fun f => f.folderPath = fp ∧ f.basename = b)).map
    (fun f => f.content)

/-- `vault.modify`: replace the content of the file at the given place. -/
def vSetContent (v : Vault) (fp b c : String) : Vault :=
  { v with files := v.files.map (fun f =>
      if f.folderPath = fp ∧ f.basename = b then { f with content := c }
      else f) }

/-- `vault.create`: append a new file. -/
def vCreateFile (v : Vault) (fp b c : String) : Vault :=
  { v with files := v.files ++ [⟨fp, b, c⟩] }

/-- `vault.rename` within the same folder (every engine rename keeps the
folder and changes only the basename). -/
def vRenameFile (v : Vault) (fp oldB newB : String) : Vault :=
  { v with files := v.files.map (fun f =>
      if f.folderPath = fp ∧ f.basename = oldB then { f with basename := newB }
      else f) }

/-- `app.fileManager.trashFile`: remove the file. -/
def vTrashFile (v : Vault) (fp b : String) : Vault :=
  { v with files := v.files.filter (fun f =>
      ¬(f.folderPath = fp ∧ f.basename = b)) }

/-! ### Leaf link upserter (`linksInNotes.ts`) -/

/-- `CSS_CLASS_OB_HIDE` from `constants.ts`. -/
def CSS_CLASS_OB_HIDE : String := "graphforge-ob-hide"

/-- `getFolderNameFromPath` from `vaultEvents.ts`:
`path.replace(/^\/|\/$/g, "").split("/").filter(Boolean).pop() ?? path`. -/
def getFolderNameFromPath (path : String) : String :=
  match (pathSegments path).getLast? with
  | some seg => seg
  | none => path

/-- A note's parent folder; `none` models `folder == null || folder.isRoot()`
(files directly in the vault root carry the empty folder path). -/
def noteFolder (note : HFile) : Option Folder :=
  if note.folderPath = "" then none
  else some ⟨note.folderPath, getFolderNameFromPath note.folderPath⟩

/-- The Obsidian parent path of a folder path: everything before the last
slash, `""` (the root) for a top-level folder. -/
def parentPathOf (path : String) : String :=
  let rev := path.data.reverse
  let tailSeg := rev.takeWhile (fun c => c ≠ '/')
  if tailSeg.length = path.data.length then ""
  else String.mk ((rev.drop (tailSeg.length + 1)).reverse)

/-- The characters a wiki-link target may not contain (`[^\]#|]`). -/
def isTargetStop (c : Char) : Bool := c = ']' || c = '#' || c = '|'

/-- Match `\[\[([^\]#|]+)` at the head of a character list. -/
def wikiTargetAt (cs : List Char) : Option (List Char) :=
  match cs with
  | '[' :: '[' :: rest =>
    let t := rest.takeWhile (fun c => !isTargetStop c)
    if t.isEmpty then none else some t
  | _ => none

/-- Match `<span[^>]*>\[\[([^\]#|]+)` at the head of a character list:
after the literal `<span`, `[^>]*` can only reach the first `>`. -/
def spanTargetAt (cs : List Char) : Option (List Char) :=
  if cs.take 5 = ['<', 's', 'p', 'a', 'n'] then
    let rest := cs.drop 5
    let attrs := rest.takeWhile (fun c => c ≠ '>')
    match rest.drop attrs.length with
    | '>' :: afterGt => wikiTargetAt afterGt
    | _ => none
  else none

/-- Leftmost unanchored search for the span form. -/
def spanTargetSearch : List Char → Option (List Char)
  | [] => none
  | c :: cs =>
    match spanTargetAt (c :: cs) with
    | some t => some t
    | none => spanTargetSearch cs

/-- `extractWikiLinkTarget` from `linksInNotes.ts`: on the trimmed line,
first the anchored `^\[\[([^\]#|]+)` match, then the unanchored
`<span[^>]*>\[\[([^\]#|]+)` match. -/
def extractWikiLinkTarget (line : String) : Option String :=
  let trimmed := (jsTrim line).data
  match wikiTargetAt trimmed with
  | some t => some (String.mk t)
  | none => (spanTargetSearch trimmed).map (fun t => String.mk t)

/-- The line terminators JS `.` does not match. -/
def isLineTerm (c : Char) : Bool :=
  c = '\n' || c = '\r' || c = ' ' || c = ' '

/-- `targetMatchesHubSuffixPattern` from `linksInNotes.ts`: the regex
`^.*S\d*$` (S the escaped effective suffix) matches iff the target splits
as a line-terminator-free prefix, then S, then only digits. -/
def targetMatchesHubSuffixPattern (target : String) (suffix : String) : Bool :=
  let s := (effSuffix suffix).data
  let cs := target.data
  (List.range (cs.length + 1)).any (fun i =>
    (cs.take i).all (fun c => !isLineTerm c) &&
    decide ((cs.drop i).take s.length = s) &&
    ((cs.drop i).drop s.length).all Char.isDigit)

/-- `isHubLinkLine` from `linksInNotes.ts`.  With `folder = none` it
recognizes a link under the current suffix, or under the previous suffix
when that differs (so stale links are stripped after a suffix change);
with a folder it recognizes exactly that folder's base or numbered hub
name. -/
def isHubLinkLine (line : String) (folder : Option Folder)
    (settings : HubSettings) : Bool :=
  match extractWikiLinkTarget line with
  | none => false
  | some target =>
    let suffix := effSuffix settings.hubSuffix
    match folder with
    | none =>
      if targetMatchesHubSuffixPattern target suffix then true
      else
        let prev := settings.previousHubSuffix
        decide (prev ≠ suffix) && targetMatchesHubSuffixPattern target prev
    | some f =>
      decide (target = getHubNameForFolder f.name settings.hubSuffix) ||
        getNumberedHubPattern f.name settings.hubSuffix target

/-- `stripLeadingHubLinkLines` from `linksInNotes.ts`: the index after the
leading run of blank lines and hub link lines. -/
def stripLeadingHubLinkLines (lines : List String) (folder : Option Folder)
    (settings : HubSettings) : Nat :=
  match lines with
  | [] => 0
  | line :: rest =>
    if (jsTrim line).data.isEmpty then
      stripLeadingHubLinkLines rest folder settings + 1
    else if isHubLinkLine line folder settings then
      stripLeadingHubLinkLines rest folder settings + 1
    else 0

/-- The replacement `rest.replace(/^\s*\n?---\s*\n\s*/, "")`: with
backtracking worked out, the regex matches iff `---` sits exactly at the
end of the maximal leading whitespace run and the maximal whitespace run
after it contains a newline; the whole matched region is removed. -/
def stripLeadingSeparator (s : String) : String :=
  let cs := s.data
  let w := cs.takeWhile isJsWhitespace
  let r1 := cs.drop w.length
  if r1.take 3 = ['-', '-', '-'] then
    let r2 := r1.drop 3
    let u := r2.takeWhile isJsWhitespace
    if u.contains '\n' then String.mk (r2.drop u.length) else s
  else s

/-- `getCorrectHubLinkForNote` from `linksInNotes.ts`: `none` at the root
or under an excluded folder or when the bounded wait finds no stabilized
hub; otherwise a wiki link to the folder's expected hub name. -/
def getCorrectHubLinkForNote (v : Vault) (note : HFile)
    (settings : HubSettings) : Option String :=
  match noteFolder note with
  | none => none
  | some folder =>
    if shouldSkipPath folder.path (pathSkipFromSettings settings) then none
    else
      match waitForNumberedHubStatic v folder settings with
      | none => none
      | some _ => some ("[[" ++ expectedHubName v folder settings ++ "]]")

/-- `isHubNote` from `linksInNotes.ts`. -/
def isHubNote (v : Vault) (note : HFile) (settings : HubSettings) : Bool :=
  match noteFolder note with
  | none => false
  | some folder => note.basename = expectedHubName v folder settings

/-- `getCorrectParentLinkForHubNote` from `linksInNotes.ts` (the bounded
wait it performs on the parent is discarded by the source, and the vault
does not change during a synchronous pass, so it has no effect here). -/
def getCorrectParentLinkForHubNote (v : Vault) (note : HFile)
    (settings : HubSettings) : Option String :=
  match noteFolder note with
  | none => none
  | some folder =>
    let pp := parentPathOf folder.path
    if pp = "" then none
    else if shouldSkipPath pp (pathSkipFromSettings settings) then none
    else some ("[[" ++
      expectedHubName v ⟨pp, getFolderNameFromPath pp⟩ settings ++ "]]")

/-- `updateParentLinkUnderDirectory` from `linksInNotes.ts`: replace,
remove or insert the link line after the `## …` heading's blank run. -/
def updateParentLinkUnderDirectory (content : String)
    (parentLink : Option String) : String :=
  let lines := linesOf content
  match lines.findIdx? (fun l =>
      match (jsTrim l).data with
      | '#' :: '#' :: c :: _ => isJsWhitespace c
      | _ => false) with
  | none => content
  | some dirIdx =>
    let blanks := (lines.drop (dirIdx + 1)).takeWhile
      (fun l => (jsTrim l).data.isEmpty)
    let j := dirIdx + 1 + blanks.length
    let hasLink := match (lines.drop j).head? with
      | some lineAtJ => (extractWikiLinkTarget lineAtJ).isSome
      | none => false
    if hasLink then
      match parentLink with
      | some pl => joinLines (lines.set j pl)
      | none =>
        let l1 := lines.take j ++ lines.drop (j + 1)
        match (l1.drop j).head? with
        | some afterLine =>
          if (jsTrim afterLine).data.isEmpty then
            joinLines (l1.take j ++ l1.drop (j + 1))
          else joinLines l1
        | none => joinLines l1
    else
      match parentLink with
      | some pl => joinLines (lines.take j ++ pl :: "" :: lines.drop j)
      | none => content

/-- The new content `upsertHubLinkInNote` computes before its
write-if-different check. -/
def upsertResult (v : Vault) (note : HFile) (settings : HubSettings) :
    String :=
  let correctLink := getCorrectHubLinkForNote v note settings
  let content := (vRead v note.folderPath note.basename).getD note.content
  let lines := linesOf content
  let afterHub := stripLeadingHubLinkLines lines none settings
  let rest0 := joinLines (lines.drop afterHub)
  let rest1 := if correctLink.isNone then stripLeadingSeparator rest0 else rest0
  if isHubNote v note settings then
    updateParentLinkUnderDirectory rest1
      (getCorrectParentLinkForHubNote v note settings)
  else
    let addSeparator := settings.insertSeparatorAfterHubLink
    match correctLink with
    | none => rest1
    | some link =>
      let rest2 := if addSeparator then stripLeadingSeparator rest1 else rest1
      let linkLine := if settings.autoHideHubLinks then
          "<span class=\"" ++ CSS_CLASS_OB_HIDE ++ "\">" ++ link ++ "</span>"
        else link
      let pBlank := if settings.removeHiddenBlink then "\n" else ""
      pBlank ++ linkLine ++ "\n\n" ++
        (if addSeparator then "---\n\n" else "") ++ rest2

/-- `upsertHubLinkInNote` from `linksInNotes.ts` as a state transformer:
write the recomputed content only when it differs. -/
def upsertHubLinkInNote (v : Vault) (note : HFile) (settings : HubSettings) :
    Vault × Nat :=
  let content := (vRead v note.folderPath note.basename).getD note.content
  let newContent := upsertResult v note settings
  if newContent = content then (v, 0)
  else (vSetContent v note.folderPath note.basename newContent, 1)

/-- The loop of `removeAllHubLinksFromNotes`. -/
def removeAllHubLinksLoop (settings : HubSettings) :
    Vault → List HFile → Vault × Nat
  | v, [] => (v, 0)
  | v, note :: rest =>
    let content := (vRead v note.folderPath note.basename).getD note.content
    let lines := linesOf content
    let afterHub := stripLeadingHubLinkLines lines none settings
    let r0 := joinLines (lines.drop afterHub)
    let r1 := stripLeadingSeparator r0
    let r2 := if isHubNote v note settings then
        updateParentLinkUnderDirectory r1 none
      else r1
    if r2 = content then removeAllHubLinksLoop settings v rest
    else
      let v' := vSetContent v note.folderPath note.basename r2
      let (v'', n) := removeAllHubLinksLoop settings v' rest
      (v'', n + 1)

/-- `removeAllHubLinksFromNotes` from `linksInNotes.ts`. -/
def removeAllHubLinksFromNotes (v : Vault) (settings : HubSettings) :
    Vault × Nat :=
  removeAllHubLinksLoop settings v v.files

/-- The loop of `buildRefreshHubLinks`: every markdown file not inside a
skipped (non-root) folder is upserted. -/
def buildRefreshHubLinksLoop (settings : HubSettings)
    (options : PathSkipOptions) : Vault → List HFile → Vault × Nat
  | v, [] => (v, 0)
  | v, note :: rest =>
    let skip := match noteFolder note with
      | some f => shouldSkipPath f.path options
      | none => false
    if skip then buildRefreshHubLinksLoop settings options v rest
    else
      let r := upsertHubLinkInNote v note settings
      let r2 := buildRefreshHubLinksLoop settings options r.1 rest
      (r2.1, r.2 + r2.2)

/-- `buildRefreshHubLinks` from `linksInNotes.ts`: upsert every note, and
only after the loop completes sync `previousHubSuffix` to the current
suffix. -/
def buildRefreshHubLinks (v : Vault) (settings : HubSettings) :
    Vault × HubSettings × Nat :=
  let r := buildRefreshHubLinksLoop settings (pathSkipFromSettings settings)
    v v.files
  (r.1, { settings with previousHubSuffix := settings.hubSuffix }, r.2)

/-! ### Hub content builder and rebuild pass (`hubContent.ts`) -/

/-- `buildHubContent` from `hubContent.ts`: configurable heading
(`hubInsertTitle || "## DIRECTORY"`), optional parent link to the parent's
expected hub name, then the directory marker block.  It reads the vault
only through the folder list and stat function (the bounded wait it
performs on the parent before reading the expected name is discarded by
the source and the vault does not change during a synchronous pass). -/
def buildHubContent (allFolders : List Folder) (stat : String → Option Int)
    (folder : Folder) (settings : HubSettings) : String :=
  let title := if settings.hubInsertTitle = "" then "## DIRECTORY"
    else settings.hubInsertTitle
  let pp := parentPathOf folder.path
  let parentBlock :=
    if pp ≠ "" ∧ settings.parentLinkForSubfolderHubs then
      ["[[" ++ getExpectedHubNameForFolder allFolders stat
        ⟨pp, getFolderNameFromPath pp⟩ settings ++ "]]", ""]
    else []
  joinLines ([title, ""] ++ parentBlock ++
    ["```display_folder_directory", "```", ""])

/-- `ensureHubContentUpToDate` from `hubContent.ts`: read, compare, write
only if different. -/
def ensureHubContentUpToDate (v : Vault) (hub : HFile) (folder : Folder)
    (settings : HubSettings) : Vault × Nat :=
  let desired := buildHubContent v.folders v.stat folder settings
  let current := (vRead v hub.folderPath hub.basename).getD hub.content
  if current = desired then (v, 0)
  else (vSetContent v hub.folderPath hub.basename desired, 1)

/-- `ensureHubForFolder` from `hubContent.ts`: refresh the existing hub's
content, or create the hub at the expected name. -/
def ensureHubForFolder (v : Vault) (folder : Folder)
    (settings : HubSettings) : Vault × Nat :=
  let expectedName := expectedHubName v folder settings
  match findHubInFolder v folder settings with
  | some hub => ensureHubContentUpToDate v hub folder settings
  | none =>
    let content := buildHubContent v.folders v.stat folder settings
    (vCreateFile v folder.path expectedName content, 1)

/-- One iteration of the numbering loop of `assignNumberedHubsForName`:
create the hub at the expected numbered name if absent, rename and
refresh it if misnamed, else refresh its content. -/
def assignOneNumbered (settings : HubSettings) (folderName : String)
    (v : Vault) (folder : Folder) (i : Nat) : Vault × Nat :=
  let expectedName := getNumberedHubName folderName (i + 1) settings.hubSuffix
  match findHubInFolder v folder settings with
  | none =>
    (vCreateFile v folder.path expectedName
      (buildHubContent v.folders v.stat folder settings), 1)
  | some hub =>
    if hub.basename ≠ expectedName then
      let v' := vRenameFile v folder.path hub.basename expectedName
      let r := ensureHubContentUpToDate v'
        { hub with basename := expectedName } folder settings
      (r.1, 1 + r.2)
    else ensureHubContentUpToDate v hub folder settings

/-- The indexed loop of `assignNumberedHubsForName` over the sorted name
group (`i`-th member gets the numbered name at `i + 1`). -/
def assignNumberedLoop (settings : HubSettings) (folderName : String) :
    Vault → List Folder → Nat → Vault × Nat
  | v, [], _ => (v, 0)
  | v, folder :: rest, i =>
    let step := assignOneNumbered settings folderName v folder i
    let r2 := assignNumberedLoop settings folderName step.1 rest (i + 1)
    (r2.1, step.2 + r2.2)

/-- `assignNumberedHubsForName` from `hubContent.ts`: for a duplicated
name, give each group member its numbered hub; for a group of size at
most one, demote a misnamed hub to the base name. -/
def assignNumberedHubsForName (v : Vault) (folderName : String)
    (settings : HubSettings) : Vault × Nat :=
  let options := pathSkipFromSettings settings
  let sameName := getFoldersWithSameName v.folders v.stat folderName options
  if sameName.length ≤ 1 then
    match sameName with
    | [] => (v, 0)
    | folder :: _ =>
      let expectedName := getHubNameForFolder folderName settings.hubSuffix
      match findHubInFolderWithName v folder.path folderName settings with
      | some hub =>
        if hub.basename ≠ expectedName then
          let v' := vRenameFile v folder.path hub.basename expectedName
          let r := ensureHubContentUpToDate v'
            { hub with basename := expectedName } folder settings
          (r.1, 1 + r.2)
        else (v, 0)
      | none => (v, 0)
  else assignNumberedLoop settings folderName v sameName 0

/-- `handleDuplicateFolderNames` from `hubContent.ts`. -/
def handleDuplicateFolderNames (v : Vault) (folderName : String)
    (settings : HubSettings) : Vault × Nat :=
  assignNumberedHubsForName v folderName settings

/-- Trash every hub-named child (for the given suffix) of one folder.
The source iterates `folder.children` while trashing; the children are
modelled as the snapshot taken when the folder is visited. -/
def trashMatchingChildren (v : Vault) (folder : Folder)
    (suffix : String) : Vault × Nat :=
  let baseName := getHubNameForFolder folder.name suffix
  (childrenOf v folder.path).foldl
    (fun acc c =>
      if c.basename = baseName ||
          getNumberedHubPattern folder.name suffix c.basename then
        (vTrashFile acc.1 folder.path c.basename, acc.2 + 1)
      else acc)
    (v, 0)

/-- The folder loop of `deleteAllHubFilesWithSuffix`. -/
def deleteAllHubFilesLoop (options : PathSkipOptions) (suffix : String) :
    Vault → List Folder → Vault × Nat
  | v, [] => (v, 0)
  | v, folder :: rest =>
    if shouldSkipPath folder.path options then
      deleteAllHubFilesLoop options suffix v rest
    else if isRootFolder folder.path then
      deleteAllHubFilesLoop options suffix v rest
    else
      let step := trashMatchingChildren v folder suffix
      let r2 := deleteAllHubFilesLoop options suffix step.1 rest
      (r2.1, step.2 + r2.2)

/-- `deleteAllHubFilesWithSuffix` from `hubContent.ts`. -/
def deleteAllHubFilesWithSuffix (v : Vault) (settings : HubSettings)
    (suffix : String) : Vault × Nat :=
  deleteAllHubFilesLoop (pathSkipFromSettings settings) suffix v v.folders

/-- `removeAllHubNotes` from `hubContent.ts` (the engine part of the
Remove command): delete all hubs matching the current suffix. -/
def removeAllHubNotesEngine (v : Vault) (settings : HubSettings) :
    Vault × Nat :=
  deleteAllHubFilesWithSuffix v settings (effSuffix settings.hubSuffix)

/-- The `ensureHubForFolder` loop of `buildRefreshHubNotes` (phase A). -/
def ensureAllLoop (settings : HubSettings) (options : PathSkipOptions) :
    Vault → List Folder → Vault × Nat
  | v, [] => (v, 0)
  | v, folder :: rest =>
    if shouldSkipPath folder.path options then
      ensureAllLoop settings options v rest
    else if isRootFolder folder.path then
      ensureAllLoop settings options v rest
    else
      let step := ensureHubForFolder v folder settings
      let r2 := ensureAllLoop settings options step.1 rest
      (r2.1, step.2 + r2.2)

/-- First-occurrence deduplication (the key order of the `Map` built by
`buildRefreshHubNotes`). -/
def dedupFirst : List String → List String
  | [] => []
  | x :: xs => x :: (dedupFirst xs).filter (fun y => y ≠ x)

/-- The names the numbering pass runs on: names of non-skipped, non-root
folders (in first-occurrence order) that occur more than once. -/
def dupNamesOf (all : List Folder) (options : PathSkipOptions) :
    List String :=
  let eligible := all.filter (fun f =>
    !shouldSkipPath f.path options && !isRootFolder f.path)
  let names := eligible.map (fun f => f.name)
  (dedupFirst names).filter (fun n => 1 < names.count n)

/-- The numbering pass of `buildRefreshHubNotes` (phase B). -/
def assignNamesLoop (settings : HubSettings) :
    Vault → List String → Vault × Nat
  | v, [] => (v, 0)
  | v, name :: rest =>
    let step := assignNumberedHubsForName v name settings
    let r2 := assignNamesLoop settings step.1 rest
    (r2.1, step.2 + r2.2)

/-- `buildRefreshHubNotes` from `hubContent.ts`: migrate (delete hubs of
the previous suffix) when the suffix changed — deliberately leaving
`previousHubSuffix` untouched — then ensure a hub for every folder, then
run the numbering pass on duplicated names. -/
def buildRefreshHubNotes (v : Vault) (settings : HubSettings) :
    Vault × Nat :=
  let prev := settings.previousHubSuffix
  let m : Vault × Nat :=
    if prev ≠ settings.hubSuffix then
      deleteAllHubFilesWithSuffix v settings prev
    else (v, 0)
  let all := m.1.folders
  let options := pathSkipFromSettings settings
  let a := ensureAllLoop settings options m.1 all
  let b := assignNamesLoop settings a.1 (dupNamesOf all options)
  (b.1, m.2 + a.2 + b.2)

/-! ### Idempotence of the hub rebuild pass (claim C2)

The proof needs: decimal representations are nonempty digit strings (so a
numbered hub name matches the numbered pattern), a characterization of
hub candidates, frame lemmas for the storage operations, and
postcondition lemmas for each phase of the pass. -/

theorem toDigitsCore_length_le (b : Nat) :
    ∀ (fuel n : Nat) (acc : List Char),
      acc.length ≤ (Nat.toDigitsCore b fuel n acc).length
  | 0, _, _ => le_rfl
  | fuel + 1, n, acc => by
    rw [Nat.toDigitsCore]
    split
    · simp
    · calc acc.length ≤ (Nat.digitChar (n % b) :: acc).length := by simp
        _ ≤ _ := toDigitsCore_length_le b fuel (n / b) _

theorem digitChar_isDigit (n : Nat) (h : n < 10) :
    (Nat.digitChar n).isDigit = true := by
  interval_cases n <;> decide

theorem toDigitsCore_all_digits :
    ∀ (fuel n : Nat) (acc : List Char),
      (∀ c ∈ acc, c.isDigit = true) →
      ∀ c ∈ Nat.toDigitsCore 10 fuel n acc, c.isDigit = true
  | 0, _, _, hacc => hacc
  | fuel + 1, n, acc, hacc => by
    rw [Nat.toDigitsCore]
    split
    · intro c hc
      rcases List.mem_cons.mp hc with rfl | hc
      · exact digitChar_isDigit _ (Nat.mod_lt _ (by norm_num))
      · exact hacc c hc
    · refine toDigitsCore_all_digits fuel (n / 10) _ ?_
      intro c hc
      rcases List.mem_cons.mp hc with rfl | hc
      · exact digitChar_isDigit _ (Nat.mod_lt _ (by norm_num))
      · exact hacc c hc

/-- The decimal representation of a natural number is a nonempty string
of digits. -/
theorem natRepr_digits (n : Nat) :
    (toString n).data ≠ [] ∧ ∀ c ∈ (toString n).data, c.isDigit = true := by
  have hl : 1 ≤ (Nat.toDigitsCore 10 (n + 1) n []).length := by
    rw [Nat.toDigitsCore]
    split
    · simp
    · calc 1 = ([Nat.digitChar (n % 10)] : List Char).length := rfl
        _ ≤ _ := toDigitsCore_length_le 10 n (n / 10) _
  constructor
  · intro hnil
    have : (toString n).data.length = 0 := by rw [hnil]; rfl
    have he : (toString n).data = Nat.toDigitsCore 10 (n + 1) n [] := rfl
    rw [he] at this
    omega
  · intro c hc
    exact toDigitsCore_all_digits (n + 1) n [] (by intro c hc; cases hc) c hc

/-- A numbered hub name always matches the numbered pattern for the same
folder name and suffix. -/
theorem numberedHubPattern_numbered (folderName suffix : String) (i : Nat) :
    getNumberedHubPattern folderName suffix
      (getNumberedHubName folderName i suffix) = true := by
  have hdata : (getNumberedHubName folderName i suffix).data =
      (getHubNameForFolder folderName suffix).data ++ (toString i).data := by
    rw [getNumberedHubName, getHubNameForFolder]
    simp [String.data_append, String.append_assoc]
  rw [getNumberedHubPattern]
  obtain ⟨hne, hdig⟩ := natRepr_digits i
  rw [Bool.and_eq_true, Bool.and_eq_true]
  refine ⟨⟨decide_eq_true ?_, ?_⟩, ?_⟩
  · rw [hdata, List.take_left]
  · rw [hdata, List.drop_left]
    cases hd : (toString i).data with
    | nil => exact absurd hd hne
    | cons c cs => simp
  · rw [hdata, List.drop_left]
    exact List.all_eq_true.mpr hdig

/-- Hub candidacy of a basename: the predicate `findHubInFolderWithName`
tests on each file child. -/
def isHubCandidate (settings : HubSettings) (folderName : String)
    (basename : String) : Bool :=
  basename = getHubNameForFolder folderName settings.hubSuffix ||
    getNumberedHubPattern folderName settings.hubSuffix basename

theorem findHubInFolderWithName_eq (v : Vault) (fp folderName : String)
    (settings : HubSettings) :
    findHubInFolderWithName v fp folderName settings =
      (childrenOf v fp).find? (fun c =>
        isHubCandidate settings folderName c.basename) := rfl

/-- The expected hub name is always a hub candidate. -/
theorem isHubCandidate_expected (v : Vault) (folder : Folder)
    (settings : HubSettings) :
    isHubCandidate settings folder.name
      (expectedHubName v folder settings) = true := by
  rw [expectedHubName, getExpectedHubNameForFolder]
  split
  · simp [isHubCandidate]
  · split
    · simp [isHubCandidate]
    · simp [isHubCandidate, numberedHubPattern_numbered]

/-- A numbered hub name is always a hub candidate. -/
theorem isHubCandidate_numbered (settings : HubSettings)
    (folderName : String) (i : Nat) :
    isHubCandidate settings folderName
      (getNumberedHubName folderName i settings.hubSuffix) = true := by
  simp [isHubCandidate, numberedHubPattern_numbered]

/-- The base hub name is a hub candidate. -/
theorem isHubCandidate_base (settings : HubSettings) (folderName : String) :
    isHubCandidate settings folderName
      (getHubNameForFolder folderName settings.hubSuffix) = true := by
  simp [isHubCandidate]

/-- Generic ordering lemma: if `a` is the first element satisfying `p`,
`g` fixes every non-`p` element and keeps it outside `q`, and `g a`
satisfies `q`, then `g a` is the first element of the mapped list
satisfying `q`. -/
theorem find?_map_of_find? {α : Type} (p q : α → Bool) (g : α → α) (a : α) :
    ∀ l : List α, l.find? p = some a →
      (∀ x, p x = false → g x = x ∧ q (g x) = false) →
      q (g a) = true → (l.map g).find? q = some (g a)
  | [], hfind, _, _ => by cases hfind
  | x :: xs, hfind, hpre, hqa => by
    rw [List.map_cons, List.find?_cons]
    rcases hpx : p x with _ | _
    · obtain ⟨hgx, hqx⟩ := hpre x hpx
      rw [List.find?_cons, hpx] at hfind
      rw [hqx]
      exact find?_map_of_find? p q g a xs hfind hpre hqa
    · rw [List.find?_cons, hpx] at hfind
      cases hfind
      rw [hqa]

/-- `find?` over `filter` is `find?` with the conjoined predicate. -/
theorem find?_filter_eq {α : Type} (p q : α → Bool) :
    ∀ l : List α, (l.filter p).find? q = l.find? (fun a => p a && q a)
  | [] => rfl
  | x :: xs => by
    cases hpx : p x <;> cases hqx : q x <;>
      simp [List.filter_cons, List.find?_cons, hpx, hqx,
        find?_filter_eq p q xs]

/-! Storage operations: the folder tree and stat function are never
touched, and each operation only changes the children of its own
folder. -/

theorem vSetContent_folders (v : Vault) (fp b c : String) :
    (vSetContent v fp b c).folders = v.folders ∧
    (vSetContent v fp b c).stat = v.stat := ⟨rfl, rfl⟩

theorem vCreateFile_folders (v : Vault) (fp b c : String) :
    (vCreateFile v fp b c).folders = v.folders ∧
    (vCreateFile v fp b c).stat = v.stat := ⟨rfl, rfl⟩

theorem vRenameFile_folders (v : Vault) (fp ob nb : String) :
    (vRenameFile v fp ob nb).folders = v.folders ∧
    (vRenameFile v fp ob nb).stat = v.stat := ⟨rfl, rfl⟩

theorem childrenOf_vSetContent (v : Vault) (fp b c p : String) :
    childrenOf (vSetContent v fp b c) p =
      if p = fp then (childrenOf v p).map (fun f =>
        if f.basename = b then { f with content := c } else f)
      else childrenOf v p := by
  rw [childrenOf, vSetContent]
  simp only
  rw [List.filter_map]
  have hpred : ((fun f : HFile => decide (f.folderPath = p)) ∘ (fun f =>
      if f.folderPath = fp ∧ f.basename = b then { f with content := c }
      else f)) = (fun f : HFile => decide (f.folderPath = p)) := by
    funext f
    simp only [Function.comp]
    split <;> rfl
  rw [hpred]
  split
  · rename_i hp
    subst hp
    apply List.map_congr_left
    intro f hf
    have hfp : f.folderPath = p := by
      have := List.of_mem_filter hf
      simpa using this
    by_cases hb : f.basename = b
    · rw [if_pos ⟨hfp, hb⟩, if_pos hb]
    · rw [if_neg (by tauto), if_neg hb]
  · rename_i hp
    have hfix : ∀ f ∈ v.files.filter
        (fun f : HFile => decide (f.folderPath = p)),
        (if f.folderPath = fp ∧ f.basename = b then { f with content := c }
          else f) = f := by
      intro f hf
      have hfp : f.folderPath = p := by
        have := List.of_mem_filter hf
        simpa using this
      rw [if_neg (by rw [hfp]; tauto)]
    rw [List.map_congr_left hfix, childrenOf]
    simp

theorem childrenOf_vRenameFile (v : Vault) (fp ob nb p : String) :
    childrenOf (vRenameFile v fp ob nb) p =
      if p = fp then (childrenOf v p).map (fun f =>
        if f.basename = ob then { f with basename := nb } else f)
      else childrenOf v p := by
  rw [childrenOf, vRenameFile]
  simp only
  rw [List.filter_map]
  have hpred : ((fun f : HFile => decide (f.folderPath = p)) ∘ (fun f =>
      if f.folderPath = fp ∧ f.basename = ob then { f with basename := nb }
      else f)) = (fun f : HFile => decide (f.folderPath = p)) := by
    funext f
    simp only [Function.comp]
    split <;> rfl
  rw [hpred]
  split
  · rename_i hp
    subst hp
    apply List.map_congr_left
    intro f hf
    have hfp : f.folderPath = p := by
      have := List.of_mem_filter hf
      simpa using this
    by_cases hb : f.basename = ob
    · rw [if_pos ⟨hfp, hb⟩, if_pos hb]
    · rw [if_neg (by tauto), if_neg hb]
  · rename_i hp
    have hfix : ∀ f ∈ v.files.filter
        (fun f : HFile => decide (f.folderPath = p)),
        (if f.folderPath = fp ∧ f.basename = ob then { f with basename := nb }
          else f) = f := by
      intro f hf
      have hfp : f.folderPath = p := by
        have := List.of_mem_filter hf
        simpa using this
      rw [if_neg (by rw [hfp]; tauto)]
    rw [List.map_congr_left hfix, childrenOf]
    simp

theorem childrenOf_vCreateFile (v : Vault) (fp b c p : String) :
    childrenOf (vCreateFile v fp b c) p =
      if p = fp then childrenOf v p ++ [⟨fp, b, c⟩] else childrenOf v p := by
  rw [childrenOf, vCreateFile]
  simp only
  rw [List.filter_append]
  split
  · rename_i hp
    subst hp
    rw [childrenOf]
    congr 1
    simp
  · rename_i hp
    rw [childrenOf]
    have hone : [(⟨fp, b, c⟩ : HFile)].filter
        (fun f : HFile => decide (f.folderPath = p)) = [] := by
      simp [show ¬(fp = p) from fun h => hp h.symm]
    rw [hone, List.append_nil]

/-- `vault.read` expressed on the folder's children. -/
theorem vRead_eq_children (v : Vault) (fp b : String) :
    vRead v fp b = ((childrenOf v fp).find? (fun f =>
      f.basename = b)).map (fun f => f.content) := by
  rw [vRead, childrenOf, find?_filter_eq]
  congr 2
  funext f
  by_cases h1 : f.folderPath = fp <;> by_cases h2 : f.basename = b <;>
    simp [h1, h2]

/-! Readiness predicates: the states in which each phase of the rebuild
performs no write. -/

/-- A folder the rebuild pass processes: neither skipped nor the root. -/
def eligibleFolder (f : Folder) (options : PathSkipOptions) : Prop :=
  shouldSkipPath f.path options = false ∧ isRootFolder f.path = false

/-- The hub's stored content equals the desired built content. -/
def contentCurrent (v : Vault) (hub : HFile) (f : Folder)
    (settings : HubSettings) : Prop :=
  (vRead v hub.folderPath hub.basename).getD hub.content =
    buildHubContent v.folders v.stat f settings

/-- `ensureHubForFolder` finds a hub whose content is up to date. -/
def ensureReady (v : Vault) (f : Folder) (settings : HubSettings) : Prop :=
  ∃ hub, findHubInFolder v f settings = some hub ∧
    contentCurrent v hub f settings

/-- The numbering pass finds, for every group member, a hub already named
with the member's numbered name and carrying the desired content. -/
def groupReady (v : Vault) (n : String) (settings : HubSettings) : Prop :=
  1 < (getFoldersWithSameName v.folders v.stat n
    (pathSkipFromSettings settings)).length ∧
  ∀ (k : Nat) (f : Folder),
    (getFoldersWithSameName v.folders v.stat n
      (pathSkipFromSettings settings)).get? k = some f →
    ∃ hub, findHubInFolder v f settings = some hub ∧
      hub.basename = getNumberedHubName n (k + 1) settings.hubSuffix ∧
      contentCurrent v hub f settings

/-- A found hub is a child of the folder it was found in. -/
theorem findHub_mem (v : Vault) (f : Folder) (settings : HubSettings)
    (hub : HFile) (h : findHubInFolder v f settings = some hub) :
    hub ∈ childrenOf v f.path ∧ hub.folderPath = f.path ∧
    isHubCandidate settings f.name hub.basename = true := by
  rw [findHubInFolder, findHubInFolderWithName_eq] at h
  refine ⟨List.mem_of_find?_eq_some h, ?_,
    @List.find?_some HFile (fun c => isHubCandidate settings f.name c.basename)
      hub (childrenOf v f.path) h⟩
  have hm := List.mem_of_find?_eq_some h
  rw [childrenOf] at hm
  have := List.of_mem_filter hm
  simpa using this

/-- Candidacy depends only on the basename. -/
theorem isHubCandidate_congr (settings : HubSettings) (n : String)
    (x y : HFile) (h : x.basename = y.basename) :
    isHubCandidate settings n x.basename =
      isHubCandidate settings n y.basename := by rw [h]

/-- `ensureReady` only depends on the folder list, the stat function and
the folder's own children. -/
theorem ensureReady_frame (v v' : Vault) (f : Folder)
    (settings : HubSettings) (hfo : v'.folders = v.folders)
    (hst : v'.stat = v.stat)
    (hch : childrenOf v' f.path = childrenOf v f.path)
    (h : ensureReady v f settings) : ensureReady v' f settings := by
  obtain ⟨hub, hfind, hcur⟩ := h
  obtain ⟨_, hfp, _⟩ := findHub_mem v f settings hub hfind
  refine ⟨hub, ?_, ?_⟩
  · rw [findHubInFolder, findHubInFolderWithName_eq, hch,
      ← findHubInFolderWithName_eq, ← findHubInFolder]
    exact hfind
  · rw [contentCurrent, vRead_eq_children, hfp, hch, hfo, hst, ← hfp,
      ← vRead_eq_children]
    exact hcur

/-- `groupReady` only depends on the folder list, the stat function and
the group members' children. -/
theorem groupReady_frame (v v' : Vault) (n : String)
    (settings : HubSettings) (hfo : v'.folders = v.folders)
    (hst : v'.stat = v.stat)
    (hch : ∀ f ∈ getFoldersWithSameName v.folders v.stat n
      (pathSkipFromSettings settings),
      childrenOf v' f.path = childrenOf v f.path)
    (h : groupReady v n settings) : groupReady v' n settings := by
  obtain ⟨hlen, hmem⟩ := h
  rw [groupReady, hfo, hst]
  refine ⟨hlen, ?_⟩
  intro k f hk
  obtain ⟨hub, hfind, hname, hcur⟩ := hmem k f hk
  obtain ⟨_, hfp, _⟩ := findHub_mem v f settings hub hfind
  have hfmem : f ∈ getFoldersWithSameName v.folders v.stat n
      (pathSkipFromSettings settings) := List.get?_mem hk
  refine ⟨hub, ?_, hname, ?_⟩
  · rw [findHubInFolder, findHubInFolderWithName_eq, hch f hfmem,
      ← findHubInFolderWithName_eq, ← findHubInFolder]
    exact hfind
  · rw [contentCurrent, vRead_eq_children, hfp, hch f hfmem, hfo, hst,
      ← hfp, ← vRead_eq_children]
    exact hcur

theorem find?_append_none {α : Type} (p : α → Bool) :
    ∀ l1 l2 : List α, l1.find? p = none →
      (l1 ++ l2).find? p = l2.find? p
  | [], l2, _ => rfl
  | x :: xs, l2, h => by
    rw [List.find?_cons] at h
    rw [List.cons_append, List.find?_cons]
    rcases hpx : p x with _ | _
    · rw [hpx] at h
      exact find?_append_none p xs l2 h
    · rw [hpx] at h
      cases h

/-- `ensureHubContentUpToDate`, called on a found hub, keeps the folder
tree, touches only that folder's children, and leaves behind a found hub
with the same basename and the desired content. -/
theorem ensureHubContentUpToDate_post (v : Vault) (hub : HFile) (f : Folder)
    (settings : HubSettings)
    (hfind : findHubInFolder v f settings = some hub) :
    (ensureHubContentUpToDate v hub f settings).1.folders = v.folders ∧
    (ensureHubContentUpToDate v hub f settings).1.stat = v.stat ∧
    (∀ p, p ≠ f.path →
      childrenOf (ensureHubContentUpToDate v hub f settings).1 p =
        childrenOf v p) ∧
    ∃ hub', findHubInFolder (ensureHubContentUpToDate v hub f settings).1 f
        settings = some hub' ∧
      hub'.basename = hub.basename ∧
      contentCurrent (ensureHubContentUpToDate v hub f settings).1 hub' f
        settings := by
  obtain ⟨hmem, hfp, hcand⟩ := findHub_mem v f settings hub hfind
  have hfind' : (childrenOf v f.path).find?
      (fun c => isHubCandidate settings f.name c.basename) = some hub := by
    rw [← findHubInFolderWithName_eq, ← findHubInFolder]
    exact hfind
  rw [ensureHubContentUpToDate]
  by_cases heq : (vRead v hub.folderPath hub.basename).getD hub.content =
      buildHubContent v.folders v.stat f settings
  · rw [if_pos heq]
    exact ⟨rfl, rfl, fun p _ => rfl, hub, hfind, rfl, heq⟩
  · rw [if_neg heq]
    simp only
    rw [hfp]
    set desired := buildHubContent v.folders v.stat f settings with hdes
    set g : HFile → HFile := fun x =>
      if x.basename = hub.basename then { x with content := desired } else x
      with hgdef
    have hg : g hub = { hub with content := desired } := by
      rw [hgdef]
      simp
    have hgfix : ∀ x : HFile,
        isHubCandidate settings f.name x.basename = false →
        g x = x ∧ ¬(x.basename = hub.basename) := by
      intro x hx
      have hbne : ¬(x.basename = hub.basename) := by
        intro hb
        rw [isHubCandidate_congr settings f.name x hub hb, hcand] at hx
        cases hx
      exact ⟨by rw [hgdef]; simp [hbne], hbne⟩
    have hchildren : childrenOf (vSetContent v f.path hub.basename desired)
        f.path = (childrenOf v f.path).map g := by
      rw [childrenOf_vSetContent, if_pos rfl]
    refine ⟨rfl, rfl, ?_, ?_⟩
    · intro p hp
      rw [childrenOf_vSetContent, if_neg hp]
    · refine ⟨{ hub with content := desired }, ?_, rfl, ?_⟩
      · rw [findHubInFolder, findHubInFolderWithName_eq, hchildren]
        have hres := find?_map_of_find?
          (fun c => isHubCandidate settings f.name c.basename)
          (fun c => isHubCandidate settings f.name c.basename) g hub
          (childrenOf v f.path) hfind'
          (fun x hx => ⟨(hgfix x hx).1, by rw [(hgfix x hx).1]; exact hx⟩)
          (by rw [hg]; exact hcand)
        rw [hg] at hres
        exact hres
      · rw [contentCurrent]
        show (vRead (vSetContent v f.path hub.basename desired)
          hub.folderPath hub.basename).getD desired =
          buildHubContent (vSetContent v f.path hub.basename desired).folders
            (vSetContent v f.path hub.basename desired).stat f settings
        rw [hfp, vRead_eq_children, hchildren]
        have hfq := find?_map_of_find?
          (fun c => isHubCandidate settings f.name c.basename)
          (fun c : HFile => decide (c.basename = hub.basename)) g hub
          (childrenOf v f.path) hfind'
          (fun x hx => ⟨(hgfix x hx).1,
            by rw [(hgfix x hx).1]; exact decide_eq_false (hgfix x hx).2⟩)
          (by rw [hg]; exact decide_eq_true rfl)
        rw [hfq, hg]
        exact rfl

/-- `ensureHubForFolder` keeps the folder tree, touches only the folder's
own children, and leaves the folder ensure-ready. -/
theorem ensureHubForFolder_post (v : Vault) (f : Folder)
    (settings : HubSettings) :
    (ensureHubForFolder v f settings).1.folders = v.folders ∧
    (ensureHubForFolder v f settings).1.stat = v.stat ∧
    (∀ p, p ≠ f.path →
      childrenOf (ensureHubForFolder v f settings).1 p = childrenOf v p) ∧
    ensureReady (ensureHubForFolder v f settings).1 f settings := by
  rw [ensureHubForFolder]
  rcases hf : findHubInFolder v f settings with _ | hub
  · simp only
    have hnone : (childrenOf v f.path).find?
        (fun c => isHubCandidate settings f.name c.basename) = none := by
      rw [← findHubInFolderWithName_eq, ← findHubInFolder]
      exact hf
    have hnocand : ∀ x ∈ childrenOf v f.path,
        ¬(isHubCandidate settings f.name x.basename = true) := by
      intro x hx
      exact List.find?_eq_none.mp hnone x hx
    set newFile : HFile := ⟨f.path, expectedHubName v f settings,
      buildHubContent v.folders v.stat f settings⟩ with hnf
    have hchildren : childrenOf (vCreateFile v f.path
        (expectedHubName v f settings)
        (buildHubContent v.folders v.stat f settings)) f.path =
        childrenOf v f.path ++ [newFile] := by
      rw [childrenOf_vCreateFile, if_pos rfl]
    refine ⟨rfl, rfl, ?_, ?_⟩
    · intro p hp
      rw [childrenOf_vCreateFile, if_neg hp]
    · refine ⟨newFile, ?_, ?_⟩
      · rw [findHubInFolder, findHubInFolderWithName_eq, hchildren,
          find?_append_none _ _ _ hnone, List.find?_cons,
          show isHubCandidate settings f.name newFile.basename = true from
            isHubCandidate_expected v f settings]
      · rw [contentCurrent]
        show (vRead (vCreateFile v f.path (expectedHubName v f settings)
            (buildHubContent v.folders v.stat f settings)) newFile.folderPath
            newFile.basename).getD newFile.content = _
        have hnb : newFile.folderPath = f.path := rfl
        rw [vRead_eq_children, hnb, hchildren]
        have hnone2 : (childrenOf v f.path).find?
            (fun c : HFile => decide (c.basename = newFile.basename)) =
            none := by
          rw [List.find?_eq_none]
          intro x hx hxb
          apply hnocand x hx
          have hxb' : x.basename = newFile.basename := of_decide_eq_true hxb
          rw [isHubCandidate_congr settings f.name x newFile hxb']
          exact isHubCandidate_expected v f settings
        rw [find?_append_none _ _ _ hnone2, List.find?_cons,
          show (decide (newFile.basename = newFile.basename)) = true from
            decide_eq_true rfl]
        exact rfl
  · simp only
    obtain ⟨h1, h2, h3, hub', h4, _, h6⟩ :=
      ensureHubContentUpToDate_post v hub f settings hf
    exact ⟨h1, h2, h3, hub', h4, h6⟩

/-- An ensure-ready folder gets zero writes from `ensureHubForFolder`. -/
theorem ensureHubForFolder_zero (v : Vault) (f : Folder)
    (settings : HubSettings) (h : ensureReady v f settings) :
    ensureHubForFolder v f settings = (v, 0) := by
  obtain ⟨hub, hfind, hcur⟩ := h
  rw [contentCurrent] at hcur
  rw [ensureHubForFolder, hfind]
  simp only
  rw [ensureHubContentUpToDate, if_pos hcur]

/-- One numbering iteration on a member whose hub is already numbered
correctly with the desired content performs no write. -/
theorem assignOneNumbered_zero (v : Vault) (m : Folder)
    (settings : HubSettings) (n : String) (i : Nat) (hub : HFile)
    (hfind : findHubInFolder v m settings = some hub)
    (hname : hub.basename = getNumberedHubName n (i + 1) settings.hubSuffix)
    (hcur : contentCurrent v hub m settings) :
    assignOneNumbered settings n v m i = (v, 0) := by
  rw [assignOneNumbered]
  simp only
  rw [hfind]
  simp only
  rw [if_neg (by rw [hname]; exact fun h => h rfl)]
  rw [contentCurrent] at hcur
  rw [ensureHubContentUpToDate, if_pos hcur]

/-- One numbering iteration keeps the folder tree, touches only the
member's own children, and leaves behind a found hub carrying the
member's numbered name and the desired content.  (The member belongs to
the name group, so its name is the group name.) -/
theorem assignOneNumbered_post (v : Vault) (m : Folder)
    (settings : HubSettings) (n : String) (i : Nat) (hmn : m.name = n) :
    (assignOneNumbered settings n v m i).1.folders = v.folders ∧
    (assignOneNumbered settings n v m i).1.stat = v.stat ∧
    (∀ p, p ≠ m.path →
      childrenOf (assignOneNumbered settings n v m i).1 p =
        childrenOf v p) ∧
    ∃ hub, findHubInFolder (assignOneNumbered settings n v m i).1 m settings =
        some hub ∧
      hub.basename = getNumberedHubName n (i + 1) settings.hubSuffix ∧
      contentCurrent (assignOneNumbered settings n v m i).1 hub m settings := by
  have hcandnum : isHubCandidate settings m.name
      (getNumberedHubName n (i + 1) settings.hubSuffix) = true := by
    rw [hmn]
    exact isHubCandidate_numbered settings n (i + 1)
  rw [assignOneNumbered]
  simp only
  rcases hf : findHubInFolder v m settings with _ | hub
  · simp only
    have hnone : (childrenOf v m.path).find?
        (fun c => isHubCandidate settings m.name c.basename) = none := by
      rw [← findHubInFolderWithName_eq, ← findHubInFolder]
      exact hf
    have hnocand : ∀ x ∈ childrenOf v m.path,
        ¬(isHubCandidate settings m.name x.basename = true) :=
      fun x hx => List.find?_eq_none.mp hnone x hx
    set newFile : HFile := ⟨m.path,
      getNumberedHubName n (i + 1) settings.hubSuffix,
      buildHubContent v.folders v.stat m settings⟩ with hnf
    have hchildren : childrenOf (vCreateFile v m.path
        (getNumberedHubName n (i + 1) settings.hubSuffix)
        (buildHubContent v.folders v.stat m settings)) m.path =
        childrenOf v m.path ++ [newFile] := by
      rw [childrenOf_vCreateFile, if_pos rfl]
    refine ⟨rfl, rfl, ?_, ?_⟩
    · intro p hp
      rw [childrenOf_vCreateFile, if_neg hp]
    · refine ⟨newFile, ?_, rfl, ?_⟩
      · rw [findHubInFolder, findHubInFolderWithName_eq, hchildren,
          find?_append_none _ _ _ hnone, List.find?_cons,
          show isHubCandidate settings m.name newFile.basename = true from
            hcandnum]
      · rw [contentCurrent]
        show (vRead (vCreateFile v m.path
            (getNumberedHubName n (i + 1) settings.hubSuffix)
            (buildHubContent v.folders v.stat m settings)) newFile.folderPath
            newFile.basename).getD newFile.content = _
        have hnb : newFile.folderPath = m.path := rfl
        rw [vRead_eq_children, hnb, hchildren]
        have hnone2 : (childrenOf v m.path).find?
            (fun c : HFile => decide (c.basename = newFile.basename)) =
            none := by
          rw [List.find?_eq_none]
          intro x hx hxb
          apply hnocand x hx
          have hxb' : x.basename = newFile.basename := of_decide_eq_true hxb
          rw [isHubCandidate_congr settings m.name x newFile hxb']
          exact hcandnum
        rw [find?_append_none _ _ _ hnone2, List.find?_cons,
          show (decide (newFile.basename = newFile.basename)) = true from
            decide_eq_true rfl]
        exact rfl
  · simp only
    obtain ⟨hmem, hfp, hcand⟩ := findHub_mem v m settings hub hf
    have hfind' : (childrenOf v m.path).find?
        (fun c => isHubCandidate settings m.name c.basename) = some hub := by
      rw [← findHubInFolderWithName_eq, ← findHubInFolder]
      exact hf
    by_cases hbn : hub.basename =
        getNumberedHubName n (i + 1) settings.hubSuffix
    · rw [if_neg (fun h => h hbn)]
      obtain ⟨h1, h2, h3, hub', h4, h5, h6⟩ :=
        ensureHubContentUpToDate_post v hub m settings hf
      exact ⟨h1, h2, h3, hub', h4, by rw [h5, hbn], h6⟩
    · rw [if_pos hbn]
      simp only
      set expectedName := getNumberedHubName n (i + 1) settings.hubSuffix
        with hexp
      set g : HFile → HFile := fun x =>
        if x.basename = hub.basename then { x with basename := expectedName }
        else x with hgdef
      have hg : g hub = { hub with basename := expectedName } := by
        rw [hgdef]
        simp
      have hgfix : ∀ x : HFile,
          isHubCandidate settings m.name x.basename = false → g x = x := by
        intro x hx
        have hbne : ¬(x.basename = hub.basename) := by
          intro hb
          rw [isHubCandidate_congr settings m.name x hub hb, hcand] at hx
          cases hx
        rw [hgdef]
        simp [hbne]
      have hchildren : childrenOf (vRenameFile v m.path hub.basename
          expectedName) m.path = (childrenOf v m.path).map g := by
        rw [childrenOf_vRenameFile, if_pos rfl]
      have hfind2 : findHubInFolder (vRenameFile v m.path hub.basename
          expectedName) m settings = some { hub with basename := expectedName } := by
        rw [findHubInFolder, findHubInFolderWithName_eq, hchildren]
        have hres := find?_map_of_find?
          (fun c => isHubCandidate settings m.name c.basename)
          (fun c => isHubCandidate settings m.name c.basename) g hub
          (childrenOf v m.path) hfind'
          (fun x hx => ⟨hgfix x hx, by rw [hgfix x hx]; exact hx⟩)
          (by rw [hg]; exact hcandnum)
        rw [hg] at hres
        exact hres
      obtain ⟨h1, h2, h3, hub', h4, h5, h6⟩ :=
        ensureHubContentUpToDate_post (vRenameFile v m.path hub.basename
          expectedName) { hub with basename := expectedName } m settings hfind2
      refine ⟨by rw [h1]; rfl, by rw [h2]; rfl, ?_, hub', h4, by rw [h5], h6⟩
      intro p hp
      rw [h3 p hp, childrenOf_vRenameFile, if_neg hp]

/-- A found hub and its up-to-date content transport to any state with
the same folder tree, stat and children for that folder. -/
theorem foundHub_frame (v v' : Vault) (f : Folder) (settings : HubSettings)
    (hub : HFile) (hfo : v'.folders = v.folders) (hst : v'.stat = v.stat)
    (hch : childrenOf v' f.path = childrenOf v f.path)
    (hfind : findHubInFolder v f settings = some hub)
    (hcur : contentCurrent v hub f settings) :
    findHubInFolder v' f settings = some hub ∧
    contentCurrent v' hub f settings := by
  obtain ⟨_, hfp, _⟩ := findHub_mem v f settings hub hfind
  constructor
  · rw [findHubInFolder, findHubInFolderWithName_eq, hch,
      ← findHubInFolderWithName_eq, ← findHubInFolder]
    exact hfind
  · rw [contentCurrent, vRead_eq_children, hfp, hch, hfo, hst, ← hfp,
      ← vRead_eq_children]
    exact hcur

/-- The ensure loop performs no write on a fully ensure-ready state. -/
theorem ensureAllLoop_zero (settings : HubSettings)
    (options : PathSkipOptions) :
    ∀ (fs : List Folder) (v : Vault),
      (∀ f ∈ fs, eligibleFolder f options → ensureReady v f settings) →
      ensureAllLoop settings options v fs = (v, 0)
  | [], v, _ => rfl
  | f :: fs, v, h => by
    rw [ensureAllLoop]
    rcases hskip : shouldSkipPath f.path options with _ | _
    · rw [if_neg (by decide)]
      rcases hroot : isRootFolder f.path with _ | _
      · rw [if_neg (by decide)]
        rw [ensureHubForFolder_zero v f settings
          (h f (List.mem_cons_self f fs) ⟨hskip, hroot⟩)]
        simp only
        rw [ensureAllLoop_zero settings options fs v
          (fun g hg he => h g (List.mem_cons_of_mem f hg) he)]
        rfl
      · rw [if_pos rfl]
        exact ensureAllLoop_zero settings options fs v
          (fun g hg he => h g (List.mem_cons_of_mem f hg) he)
    · rw [if_pos rfl]
      exact ensureAllLoop_zero settings options fs v
        (fun g hg he => h g (List.mem_cons_of_mem f hg) he)

/-- The ensure loop keeps the folder tree, touches only the processed
folders' children, and leaves every eligible processed folder
ensure-ready. -/
theorem ensureAllLoop_post (settings : HubSettings)
    (options : PathSkipOptions) :
    ∀ (fs : List Folder) (v : Vault),
      fs.Pairwise (fun a b => a.path ≠ b.path) →
      (ensureAllLoop settings options v fs).1.folders = v.folders ∧
      (ensureAllLoop settings options v fs).1.stat = v.stat ∧
      (∀ p, (∀ f ∈ fs, f.path ≠ p) →
        childrenOf (ensureAllLoop settings options v fs).1 p =
          childrenOf v p) ∧
      (∀ f ∈ fs, eligibleFolder f options →
        ensureReady (ensureAllLoop settings options v fs).1 f settings)
  | [], v, _ => ⟨rfl, rfl, fun _ _ => rfl, fun f hf => absurd hf
      (List.not_mem_nil f)⟩
  | f :: fs, v, hpw => by
    have hpw' := List.pairwise_cons.mp hpw
    rw [ensureAllLoop]
    rcases hskip : shouldSkipPath f.path options with _ | _
    · rcases hroot : isRootFolder f.path with _ | _
      · rw [if_neg (by decide),
          if_neg (by decide)]
        simp only
        obtain ⟨s1, s2, s3, s4⟩ := ensureHubForFolder_post v f settings
        obtain ⟨l1, l2, l3, l4⟩ := ensureAllLoop_post settings options fs
          (ensureHubForFolder v f settings).1 hpw'.2
        refine ⟨by rw [l1, s1], by rw [l2, s2], ?_, ?_⟩
        · intro p hp
          rw [l3 p (fun g hg => hp g (List.mem_cons_of_mem f hg)),
            s3 p (fun h => hp f (List.mem_cons_self f fs) h.symm)]
        · intro g hg he
          rcases List.mem_cons.mp hg with rfl | hg'
          · obtain ⟨hf1, hf2⟩ := foundHub_frame _ _ g settings
              (Classical.choose s4) l1 l2
              (l3 g.path (fun x hx => (hpw'.1 x hx).symm))
              (Classical.choose_spec s4).1 (Classical.choose_spec s4).2
            exact ⟨Classical.choose s4, hf1, hf2⟩
          · exact l4 g hg' he
      · rw [if_neg (by decide),
          if_pos rfl]
        obtain ⟨l1, l2, l3, l4⟩ := ensureAllLoop_post settings options fs v
          hpw'.2
        refine ⟨l1, l2, ?_, ?_⟩
        · intro p hp
          exact l3 p (fun g hg => hp g (List.mem_cons_of_mem f hg))
        · intro g hg he
          rcases List.mem_cons.mp hg with rfl | hg'
          · exact absurd he.2 (by rw [hroot]; decide)
          · exact l4 g hg' he
    · rw [if_pos rfl]
      obtain ⟨l1, l2, l3, l4⟩ := ensureAllLoop_post settings options fs v
        hpw'.2
      refine ⟨l1, l2, ?_, ?_⟩
      · intro p hp
        exact l3 p (fun g hg => hp g (List.mem_cons_of_mem f hg))
      · intro g hg he
        rcases List.mem_cons.mp hg with rfl | hg'
        · exact absurd he.1 (by rw [hskip]; decide)
        · exact l4 g hg' he

/-- The numbering loop performs no write when every member already
carries its numbered name and the desired content. -/
theorem assignNumberedLoop_zero (settings : HubSettings) (n : String) :
    ∀ (ms : List Folder) (i : Nat) (v : Vault),
      (∀ (k : Nat) (f : Folder), ms.get? k = some f →
        ∃ hub, findHubInFolder v f settings = some hub ∧
          hub.basename = getNumberedHubName n (i + k + 1) settings.hubSuffix ∧
          contentCurrent v hub f settings) →
      assignNumberedLoop settings n v ms i = (v, 0)
  | [], _, v, _ => rfl
  | m :: ms, i, v, h => by
    rw [assignNumberedLoop]
    obtain ⟨hub, hfind, hname, hcur⟩ := h 0 m rfl
    have hrest : assignNumberedLoop settings n v ms (i + 1) = (v, 0) := by
      apply assignNumberedLoop_zero
      intro k f hk
      obtain ⟨hub2, hfind2, hname2, hcur2⟩ := h (k + 1) f (by simpa using hk)
      exact ⟨hub2, hfind2, by rw [hname2]; congr 1; omega, hcur2⟩
    rw [assignOneNumbered_zero v m settings n i hub hfind
      (by rw [hname]) hcur]
    simp only
    rw [hrest]
    rfl

/-- The numbering loop keeps the folder tree, touches only its members'
children, and leaves every member with a hub named by its position and
carrying the desired content. -/
theorem assignNumberedLoop_post (settings : HubSettings) (n : String) :
    ∀ (ms : List Folder) (i : Nat) (v : Vault),
      ms.Pairwise (fun a b => a.path ≠ b.path) →
      (∀ f ∈ ms, f.name = n) →
      (assignNumberedLoop settings n v ms i).1.folders = v.folders ∧
      (assignNumberedLoop settings n v ms i).1.stat = v.stat ∧
      (∀ p, (∀ f ∈ ms, f.path ≠ p) →
        childrenOf (assignNumberedLoop settings n v ms i).1 p =
          childrenOf v p) ∧
      (∀ (k : Nat) (f : Folder), ms.get? k = some f →
        ∃ hub, findHubInFolder (assignNumberedLoop settings n v ms i).1 f
            settings = some hub ∧
          hub.basename = getNumberedHubName n (i + k + 1) settings.hubSuffix ∧
          contentCurrent (assignNumberedLoop settings n v ms i).1 hub f
            settings)
  | [], i, v, _, _ => ⟨rfl, rfl, fun _ _ => rfl, fun k f hk => by cases hk⟩
  | m :: ms, i, v, hpw, hnames => by
    have hpw' := List.pairwise_cons.mp hpw
    rw [assignNumberedLoop]
    simp only
    obtain ⟨s1, s2, s3, hub0, s4, s5, s6⟩ :=
      assignOneNumbered_post v m settings n i
        (hnames m (List.mem_cons_self m ms))
    obtain ⟨l1, l2, l3, l4⟩ := assignNumberedLoop_post settings n ms (i + 1)
      (assignOneNumbered settings n v m i).1 hpw'.2
      (fun f hf => hnames f (List.mem_cons_of_mem m hf))
    refine ⟨by rw [l1, s1], by rw [l2, s2], ?_, ?_⟩
    · intro p hp
      rw [l3 p (fun g hg => hp g (List.mem_cons_of_mem m hg)),
        s3 p (fun h => hp m (List.mem_cons_self m ms) h.symm)]
    · intro k f hk
      cases k with
      | zero =>
        have hfm : f = m := by
          rw [List.get?_cons_zero] at hk
          exact ((Option.some.injEq _ _).mp hk).symm
        subst hfm
        obtain ⟨t1, t2⟩ := foundHub_frame _ _ f settings hub0 l1 l2
          (l3 f.path (fun x hx => (hpw'.1 x hx).symm)) s4 s6
        exact ⟨hub0, t1, by rw [s5], t2⟩
      | succ k =>
        rw [List.get?_cons_succ] at hk
        obtain ⟨hub, t1, t2, t3⟩ := l4 k f hk
        exact ⟨hub, t1, by rw [t2]; congr 1; omega, t3⟩

/-- Distinct folders with pairwise-distinct paths have distinct paths. -/
theorem paths_ne_of_nodup (l : List Folder)
    (h : (l.map Folder.path).Nodup) {a b : Folder} (ha : a ∈ l) (hb : b ∈ l)
    (hne : a ≠ b) : a.path ≠ b.path := by
  have hpw : l.Pairwise (fun x y => x.path ≠ y.path) :=
    List.pairwise_map.mp h
  exact List.Pairwise.forall (fun x y hxy => (hxy ∘ Eq.symm : _)) hpw ha hb hne

/-- Members of a name group are folders of the tree with the group's
name, not skipped. -/
theorem group_mem_props (allFolders : List Folder)
    (stat : String → Option Int) (n : String) (options : PathSkipOptions)
    {f : Folder}
    (hf : f ∈ getFoldersWithSameName allFolders stat n options) :
    f ∈ allFolders ∧ f.name = n ∧ shouldSkipPath f.path options = false := by
  obtain ⟨hp, _, _⟩ := getFoldersWithSameName_spec allFolders stat n options
  have hf' : f ∈ allFolders.filter (sameNameFilter n options) := hp.subset hf
  have hmem := List.mem_of_mem_filter hf'
  have hprop := List.of_mem_filter hf'
  rw [sameNameFilter, Bool.and_eq_true, Bool.not_eq_true'] at hprop
  exact ⟨hmem, by simpa using hprop.1, hprop.2⟩

/-- A name group inherits pairwise-distinct paths from the folder tree. -/
theorem group_pairwise_paths (allFolders : List Folder)
    (stat : String → Option Int) (n : String) (options : PathSkipOptions)
    (h : (allFolders.map Folder.path).Nodup) :
    (getFoldersWithSameName allFolders stat n options).Pairwise
      (fun a b => a.path ≠ b.path) := by
  obtain ⟨hp, _, _⟩ := getFoldersWithSameName_spec allFolders stat n options
  have h1 : ((allFolders.filter (sameNameFilter n options)).map
      Folder.path).Nodup := by
    refine List.Nodup.sublist ?_ h
    exact (List.filter_sublist allFolders).map Folder.path
  have h2 : ((getFoldersWithSameName allFolders stat n options).map
      Folder.path).Nodup := ((hp.map Folder.path).nodup_iff).mpr h1
  exact List.pairwise_map.mp h2

theorem dedupFirst_subset : ∀ (l : List String), ∀ x ∈ dedupFirst l, x ∈ l
  | [] => by intro x hx; cases hx
  | a :: l => by
    intro x hx
    rw [dedupFirst] at hx
    rcases List.mem_cons.mp hx with rfl | hx'
    · exact List.mem_cons_self x l
    · exact List.mem_cons_of_mem a
        (dedupFirst_subset l x (List.mem_of_mem_filter hx'))

theorem dedupFirst_nodup : ∀ (l : List String), (dedupFirst l).Nodup
  | [] => List.nodup_nil
  | a :: l => by
    rw [dedupFirst]
    refine List.nodup_cons.mpr ⟨?_, (dedupFirst_nodup l).filter _⟩
    intro ha
    have := List.of_mem_filter ha
    simp at this

/-- The duplicated-name list is duplicate-free. -/
theorem dupNamesOf_nodup (all : List Folder) (options : PathSkipOptions) :
    (dupNamesOf all options).Nodup :=
  (dedupFirst_nodup _).filter _

/-- Every name the numbering pass runs on has a name group with more than
one member. -/
theorem dupNamesOf_group_len (all : List Folder)
    (stat : String → Option Int) (options : PathSkipOptions) :
    ∀ nm ∈ dupNamesOf all options,
      1 < (getFoldersWithSameName all stat nm options).length := by
  intro nm hnm
  rw [dupNamesOf] at hnm
  have hcount := List.of_mem_filter hnm
  rw [decide_eq_true_eq] at hcount
  obtain ⟨hp, _, _⟩ := getFoldersWithSameName_spec all stat nm options
  rw [hp.length_eq]
  calc 1 < ((all.filter (fun f =>
        !shouldSkipPath f.path options && !isRootFolder f.path)).map
          (fun f => f.name)).count nm := hcount
    _ ≤ (all.filter (sameNameFilter nm options)).length := by
        rw [List.count, List.countP_map, ← List.countP_eq_length_filter,
          List.countP_filter]
        refine List.countP_mono_left ?_
        intro f _ hfc
        rw [Bool.and_eq_true, Bool.and_eq_true] at hfc
        obtain ⟨hname, hskip, hroot⟩ := hfc
        rw [sameNameFilter, Bool.and_eq_true]
        constructor
        · simp only [Function.comp] at hname
          simpa using hname
        · exact hskip

/-- A group-ready name gets zero writes from the numbering pass. -/
theorem assignNumberedHubsForName_zero (v : Vault) (n : String)
    (settings : HubSettings) (h : groupReady v n settings) :
    assignNumberedHubsForName v n settings = (v, 0) := by
  obtain ⟨hlen, hmem⟩ := h
  rw [assignNumberedHubsForName]
  simp only
  rw [if_neg (by omega)]
  refine assignNumberedLoop_zero settings n _ 0 v ?_
  intro k f hk
  obtain ⟨hub, a, b, c⟩ := hmem k f hk
  exact ⟨hub, a, by rw [b]; congr 1; omega, c⟩

/-- The numbering pass on a duplicated name keeps the folder tree,
touches only the group members' children, and leaves the name
group-ready. -/
theorem assignNumberedHubsForName_post (v : Vault) (n : String)
    (settings : HubSettings)
    (hlen : 1 < (getFoldersWithSameName v.folders v.stat n
      (pathSkipFromSettings settings)).length)
    (hpw : (getFoldersWithSameName v.folders v.stat n
      (pathSkipFromSettings settings)).Pairwise (fun a b => a.path ≠ b.path))
    (hnames : ∀ f ∈ getFoldersWithSameName v.folders v.stat n
      (pathSkipFromSettings settings), f.name = n) :
    (assignNumberedHubsForName v n settings).1.folders = v.folders ∧
    (assignNumberedHubsForName v n settings).1.stat = v.stat ∧
    (∀ p, (∀ f ∈ getFoldersWithSameName v.folders v.stat n
      (pathSkipFromSettings settings), f.path ≠ p) →
      childrenOf (assignNumberedHubsForName v n settings).1 p =
        childrenOf v p) ∧
    groupReady (assignNumberedHubsForName v n settings).1 n settings := by
  rw [assignNumberedHubsForName]
  simp only
  rw [if_neg (by omega)]
  obtain ⟨l1, l2, l3, l4⟩ := assignNumberedLoop_post settings n
    (getFoldersWithSameName v.folders v.stat n
      (pathSkipFromSettings settings)) 0 v hpw hnames
  refine ⟨l1, l2, l3, ?_⟩
  rw [groupReady, l1, l2]
  refine ⟨hlen, ?_⟩
  intro k f hk
  obtain ⟨hub, a, b, c⟩ := l4 k f hk
  exact ⟨hub, a, by rw [b]; congr 1; omega, c⟩

/-- The numbering-names loop performs no write when every processed name
is group-ready. -/
theorem assignNamesLoop_zero (settings : HubSettings) :
    ∀ (names : List String) (v : Vault),
      (∀ nm ∈ names, groupReady v nm settings) →
      assignNamesLoop settings v names = (v, 0)
  | [], v, _ => rfl
  | n :: names, v, h => by
    rw [assignNamesLoop,
      assignNumberedHubsForName_zero v n settings (h n (List.mem_cons_self n names))]
    simp only
    rw [assignNamesLoop_zero settings names v
      (fun nm hnm => h nm (List.mem_cons_of_mem n hnm))]
    rfl

/-- The numbering-names loop keeps the folder tree, touches only the
children of its names' group members, preserves ensure-readiness of all
eligible folders, and leaves every processed name group-ready. -/
theorem assignNamesLoop_post (settings : HubSettings) :
    ∀ (names : List String) (v : Vault),
      (v.folders.map Folder.path).Nodup →
      names.Nodup →
      (∀ nm ∈ names, 1 < (getFoldersWithSameName v.folders v.stat nm
        (pathSkipFromSettings settings)).length) →
      (assignNamesLoop settings v names).1.folders = v.folders ∧
      (assignNamesLoop settings v names).1.stat = v.stat ∧
      (∀ p, (∀ nm ∈ names, ∀ f ∈ getFoldersWithSameName v.folders v.stat nm
        (pathSkipFromSettings settings), f.path ≠ p) →
        childrenOf (assignNamesLoop settings v names).1 p = childrenOf v p) ∧
      (∀ nm ∈ names, groupReady (assignNamesLoop settings v names).1 nm
        settings)
  | [], v, _, _, _ => ⟨rfl, rfl, fun _ _ => rfl,
      fun nm hnm => absurd hnm (List.not_mem_nil nm)⟩
  | n :: names, v, hpaths, hnodup, hglobal => by
    have hnodup' := List.nodup_cons.mp hnodup
    have hpw := group_pairwise_paths v.folders v.stat n
      (pathSkipFromSettings settings) hpaths
    have hnames : ∀ f ∈ getFoldersWithSameName v.folders v.stat n
        (pathSkipFromSettings settings), f.name = n :=
      fun f hf => (group_mem_props v.folders v.stat n _ hf).2.1
    obtain ⟨a1, a2, a3, aG⟩ := assignNumberedHubsForName_post v n settings
      (hglobal n (List.mem_cons_self n names)) hpw hnames
    rw [assignNamesLoop]
    simp only
    obtain ⟨b1, b2, b3, b4⟩ := assignNamesLoop_post settings names
      (assignNumberedHubsForName v n settings).1
      (by rw [a1]; exact hpaths) hnodup'.2
      (by rw [a1, a2]; exact fun nm hnm => hglobal nm (List.mem_cons_of_mem n hnm))
    have hgroups : ∀ nm, getFoldersWithSameName
        (assignNumberedHubsForName v n settings).1.folders
        (assignNumberedHubsForName v n settings).1.stat nm
        (pathSkipFromSettings settings) =
        getFoldersWithSameName v.folders v.stat nm
          (pathSkipFromSettings settings) := by
      intro nm
      rw [a1, a2]
    refine ⟨by rw [b1, a1], by rw [b2, a2], ?_, ?_⟩
    · intro p hp
      rw [b3 p ?_, a3 p (hp n (List.mem_cons_self n names))]
      intro nm hnm f hf
      rw [hgroups nm] at hf
      exact hp nm (List.mem_cons_of_mem n hnm) f hf
    · intro nm hnm
      rcases List.mem_cons.mp hnm with rfl | hnm'
      · refine groupReady_frame _ _ nm settings b1 b2 ?_ aG
        intro f hf
        refine b3 f.path ?_
        intro nm' hnm' g hg
        rw [hgroups nm'] at hg
        intro hgp
        have hfmem := group_mem_props _ _ nm _ hf
        have hgmem := group_mem_props v.folders v.stat nm' _ hg
        have hfv : f ∈ v.folders := by
          have := hfmem.1
          rw [a1] at this
          exact this
        have hne : g ≠ f := by
          intro hgf
          apply hnodup'.1
          have : nm' = nm := by
            rw [← hgmem.2.1, hgf]
            have := hfmem.2.1
            exact this
          rw [← this]
          exact hnm'
        exact paths_ne_of_nodup v.folders hpaths hgmem.1 hfv hne hgp
      · exact b4 nm hnm'

/-- Claim C2 (amended): with no pending suffix migration
(`previousHubSuffix = hubSuffix`), the full hub rebuild pass is
idempotent: running `buildRefreshHubNotes` once and then a second time
with no external changes in between performs zero writes on the second
run.  The hypotheses restrict to well-formed vaults: folder paths are
unique, and no folder holds more than one hub-candidate file (on such a
vault the storage layer's `rename` can never collide with an existing
file, which the model's rename does not represent). -/
theorem buildRefreshHubNotes_idempotent (v : Vault) (settings : HubSettings)
    (Hpaths : (v.folders.map Folder.path).Nodup)
    (Huniq : ∀ f ∈ v.folders, ((childrenOf v f.path).filter (fun c =>
      isHubCandidate settings f.name c.basename)).length ≤ 1)
    (Hprev : settings.previousHubSuffix = settings.hubSuffix) :
    (buildRefreshHubNotes (buildRefreshHubNotes v settings).1 settings).2 =
      0 := by
  have hpwv : v.folders.Pairwise (fun a b => a.path ≠ b.path) :=
    List.pairwise_map.mp Hpaths
  obtain ⟨pA1, pA2, pA3, pA4⟩ := ensureAllLoop_post settings
    (pathSkipFromSettings settings) v.folders v hpwv
  obtain ⟨pB1, pB2, pB3, pB4⟩ := assignNamesLoop_post settings
    (dupNamesOf v.folders (pathSkipFromSettings settings))
    (ensureAllLoop settings (pathSkipFromSettings settings) v v.folders).1
    (by rw [pA1]; exact Hpaths)
    (dupNamesOf_nodup v.folders (pathSkipFromSettings settings))
    (by
      rw [pA1, pA2]
      exact dupNamesOf_group_len v.folders v.stat
        (pathSkipFromSettings settings))
  have hrun1 : (buildRefreshHubNotes v settings).1 =
      (assignNamesLoop settings
        (ensureAllLoop settings (pathSkipFromSettings settings) v
          v.folders).1
        (dupNamesOf v.folders (pathSkipFromSettings settings))).1 := by
    rw [buildRefreshHubNotes]
    simp only
    rw [if_neg (fun h => h Hprev)]
  set v1 := (buildRefreshHubNotes v settings).1 with hv1
  have hv1b : v1 = (assignNamesLoop settings
      (ensureAllLoop settings (pathSkipFromSettings settings) v v.folders).1
      (dupNamesOf v.folders (pathSkipFromSettings settings))).1 := hrun1
  have hfo1 : v1.folders = v.folders := by rw [hv1b, pB1, pA1]
  have hst1 : v1.stat = v.stat := by rw [hv1b, pB2, pA2]
  have hgroups1 : ∀ nm, getFoldersWithSameName v1.folders v1.stat nm
      (pathSkipFromSettings settings) =
      getFoldersWithSameName v.folders v.stat nm
        (pathSkipFromSettings settings) := by
    intro nm
    rw [hfo1, hst1]
  have hreadyB : ∀ nm ∈ dupNamesOf v.folders (pathSkipFromSettings settings),
      groupReady v1 nm settings := by
    intro nm hnm
    rw [hv1b]
    exact pB4 nm hnm
  have hreadyA : ∀ f ∈ v.folders,
      eligibleFolder f (pathSkipFromSettings settings) →
      ensureReady v1 f settings := by
    intro f hf he
    by_cases hin : ∃ nm ∈ dupNamesOf v.folders (pathSkipFromSettings settings),
      f ∈ getFoldersWithSameName v.folders v.stat nm
        (pathSkipFromSettings settings)
    · obtain ⟨nm, hnm, hfin⟩ := hin
      obtain ⟨hlen1, hmem1⟩ := hreadyB nm hnm
      rw [hgroups1 nm] at hmem1
      obtain ⟨k, hk⟩ := List.mem_iff_get?.mp hfin
      obtain ⟨hub, h1, _, h3⟩ := hmem1 k f hk
      exact ⟨hub, h1, h3⟩
    · push_neg at hin
      have hch : childrenOf v1 f.path = childrenOf
          (ensureAllLoop settings (pathSkipFromSettings settings) v
            v.folders).1 f.path := by
        rw [hv1b]
        refine pB3 f.path ?_
        intro nm hnm g hg
        rw [pA1, pA2] at hg
        intro hgp
        have hgmem := group_mem_props v.folders v.stat nm _ hg
        by_cases hgf : g = f
        · exact hin nm hnm (hgf ▸ hg)
        · exact paths_ne_of_nodup v.folders Hpaths hgmem.1 hf hgf hgp
      refine ensureReady_frame _ _ f settings ?_ ?_ hch (pA4 f hf he)
      · rw [hv1b, pB1]
      · rw [hv1b, pB2]
  rw [buildRefreshHubNotes]
  simp only
  rw [if_neg (fun h => h Hprev)]
  simp only
  have hA2 : ensureAllLoop settings (pathSkipFromSettings settings) v1
      v.folders = (v1, 0) :=
    ensureAllLoop_zero settings (pathSkipFromSettings settings) v.folders v1
      hreadyA
  have hB2 : assignNamesLoop settings v1
      (dupNamesOf v.folders (pathSkipFromSettings settings)) = (v1, 0) :=
    assignNamesLoop_zero settings _ v1 hreadyB
  rw [hfo1, hA2]
  simp only
  rw [hB2]
  rfl

/-- Claim C2 as stated (for every tree state and settings) is false: with
a pending suffix migration from `"_1"` to `"_"` and two folders named
`X`, the first rebuild creates the numbered hubs `X_1` and `X_2`, and the
second run's migration step deletes `X_1` again (it matches the old
suffix's base hub name) and recreates it — nonzero writes on the second
run. -/
theorem buildRefreshHubNotes_migration_cex :
    (buildRefreshHubNotes
      (buildRefreshHubNotes
        ⟨[⟨"A/X", "X"⟩, ⟨"B/X", "X"⟩],
          fun p => if p = "A/X" then some 1 else some 2, []⟩
        ⟨"_", "_1", "## DIRECTORY", [], true, false, false, false, true,
          true, false⟩).1
      ⟨"_", "_1", "## DIRECTORY", [], true, false, false, false, true,
        true, false⟩).2 ≠ 0 := by decide

/-- Witness for `buildRefreshHubNotes_idempotent`: a concrete two-folder
vault with duplicate names and no pending migration rebuilds to a
fixpoint. -/
theorem buildRefreshHubNotes_idempotent_witness :
    (buildRefreshHubNotes
      (buildRefreshHubNotes
        ⟨[⟨"A/X", "X"⟩, ⟨"B/X", "X"⟩],
          fun p => if p = "A/X" then some 1 else some 2, []⟩
        ⟨"_", "_", "## DIRECTORY", [], true, false, false, false, true,
          true, false⟩).1
      ⟨"_", "_", "## DIRECTORY", [], true, false, false, false, true,
        true, false⟩).2 = 0 :=
  buildRefreshHubNotes_idempotent
    ⟨[⟨"A/X", "X"⟩, ⟨"B/X", "X"⟩],
      fun p => if p = "A/X" then some 1 else some 2, []⟩
    ⟨"_", "_", "## DIRECTORY", [], true, false, false, false, true,
      true, false⟩ (by decide) (by decide) rfl

/-! ### Round trip of the leaf link upserter (claim C3) -/

/-- During a synchronous pass the bounded wait immediately returns a hub
that exists under its expected name. -/
theorem waitStatic_some (v : Vault) (folder : Folder)
    (settings : HubSettings) (hub : HFile)
    (hfind : findHubInFolder v folder settings = some hub)
    (hstable : hub.basename = expectedHubName v folder settings) :
    waitForNumberedHubStatic v folder settings = some hub := by
  rw [waitForNumberedHubStatic, waitForNumberedHub,
    show WAIT_FOR_HUB_ATTEMPTS = 59 + 1 from rfl, waitForNumberedHubFrom,
    hubCheckAt]
  simp only [hfind]
  rw [if_pos hstable]

/-- Dropping leading lines of a document leaves a literal suffix. -/
theorem joinLines_drop_suffix (s : String) (k : Nat) :
    ∃ pre : String, s = pre ++ joinLines ((linesOf s).drop k) := by
  obtain ⟨pre, hpre⟩ := joinNl_drop_suffix s.data k
  refine ⟨String.mk pre, ?_⟩
  apply String.ext
  rw [String.data_append]
  show s.data = pre ++ (joinLines ((linesOf s).drop k)).data
  have hmap : (linesOf s).drop k = ((splitNl s.data).drop k).map
      (fun cs => String.mk cs) := by
    rw [linesOf, List.map_drop]
  have hjoin : (joinLines ((linesOf s).drop k)).data =
      joinNl ((splitNl s.data).drop k) := by
    rw [hmap, joinLines]
    show joinNl ((((splitNl s.data).drop k).map (fun cs => String.mk cs)).map
      String.data) = _
    rw [List.map_map]
    congr 1
    exact List.map_id _
  rw [hjoin]
  exact hpre

/-- A dropped tail of a string's characters is a literal suffix. -/
theorem mk_drop_suffix (s : String) (t : List Char) (n : Nat)
    (h : t = s.data.drop n) : ∃ pre, s = pre ++ String.mk t := by
  refine ⟨String.mk (s.data.take n), ?_⟩
  apply String.ext
  rw [String.data_append]
  show s.data = s.data.take n ++ t
  rw [h, List.take_append_drop]

/-- Stripping a leading separator leaves a literal suffix. -/
theorem stripLeadingSeparator_suffix (s : String) :
    ∃ pre : String, s = pre ++ stripLeadingSeparator s := by
  rw [stripLeadingSeparator]
  split
  · dsimp only
    split
    · exact mk_drop_suffix s _ _ (by rw [List.drop_drop, List.drop_drop])
    · exact ⟨"", by simp⟩
  · exact ⟨"", by simp⟩

/-- Claim C3: for a non-hub leaf note inside a non-root, non-excluded
folder whose hub has stabilized (a hub exists under the currently
expected name), the content computed by `upsertHubLinkInNote` is exactly
one wiki link to the folder's expected hub name — wrapped in the hidden
span when `autoHideHubLinks` is on and preceded by a blank line when
`removeHiddenBlink` is on — followed by a blank line, then a `---` line
and a blank line when the separator setting is on, and then a tail that
is byte-for-byte a literal suffix of the original content (what followed
the stripped leading link block, less a leftover separator when the
separator setting is on). -/
theorem upsert_roundtrip (v : Vault) (note : HFile) (settings : HubSettings)
    (folder : Folder) (hub : HFile)
    (hnf : noteFolder note = some folder)
    (hskip : shouldSkipPath folder.path (pathSkipFromSettings settings) =
      false)
    (hfind : findHubInFolder v folder settings = some hub)
    (hstable : hub.basename = expectedHubName v folder settings)
    (hnothub : note.basename ≠ expectedHubName v folder settings)
    (hcur : vRead v note.folderPath note.basename = some note.content) :
    ∃ tail : String,
      upsertResult v note settings =
        (if settings.removeHiddenBlink then "\n" else "") ++
          (if settings.autoHideHubLinks then
            "<span class=\"" ++ CSS_CLASS_OB_HIDE ++ "\">" ++
              ("[[" ++ expectedHubName v folder settings ++ "]]") ++ "</span>"
          else "[[" ++ expectedHubName v folder settings ++ "]]") ++ "\n\n" ++
          (if settings.insertSeparatorAfterHubLink then "---\n\n" else "") ++
          tail ∧
      (∃ pre : String, note.content = pre ++ tail) ∧
      tail = (if settings.insertSeparatorAfterHubLink then
          stripLeadingSeparator (joinLines ((linesOf note.content).drop
            (stripLeadingHubLinkLines (linesOf note.content) none settings)))
        else joinLines ((linesOf note.content).drop
            (stripLeadingHubLinkLines (linesOf note.content) none settings))) := by
  have hlink : getCorrectHubLinkForNote v note settings =
      some ("[[" ++ expectedHubName v folder settings ++ "]]") := by
    rw [getCorrectHubLinkForNote, hnf]
    simp only
    rw [if_neg (by simp [hskip]),
      waitStatic_some v folder settings hub hfind hstable]
  have hhubnote : isHubNote v note settings = false := by
    rw [isHubNote, hnf]
    simp only
    exact decide_eq_false hnothub
  refine ⟨(if settings.insertSeparatorAfterHubLink then
      stripLeadingSeparator (joinLines ((linesOf note.content).drop
        (stripLeadingHubLinkLines (linesOf note.content) none settings)))
    else joinLines ((linesOf note.content).drop
      (stripLeadingHubLinkLines (linesOf note.content) none settings))),
    ?_, ?_, rfl⟩
  · rw [upsertResult]
    simp only [hlink, hcur, Option.getD_some, Option.isNone_some,
      Bool.false_eq_true, if_false, hhubnote]
  · obtain ⟨p1, h1⟩ := joinLines_drop_suffix note.content
      (stripLeadingHubLinkLines (linesOf note.content) none settings)
    by_cases hsep : settings.insertSeparatorAfterHubLink
    · rw [if_pos hsep]
      obtain ⟨p2, h2⟩ := stripLeadingSeparator_suffix
        (joinLines ((linesOf note.content).drop
          (stripLeadingHubLinkLines (linesOf note.content) none settings)))
      refine ⟨p1 ++ p2, ?_⟩
      calc note.content = p1 ++ joinLines ((linesOf note.content).drop
            (stripLeadingHubLinkLines (linesOf note.content) none settings)) :=
          h1
        _ = p1 ++ (p2 ++ stripLeadingSeparator
            (joinLines ((linesOf note.content).drop
              (stripLeadingHubLinkLines (linesOf note.content) none
                settings)))) := by
          exact congrArg (fun x => p1 ++ x) h2
        _ = p1 ++ p2 ++ stripLeadingSeparator
            (joinLines ((linesOf note.content).drop
              (stripLeadingHubLinkLines (linesOf note.content) none
                settings))) := by
          rw [String.append_assoc]
    · rw [if_neg hsep]
      exact ⟨p1, h1⟩

/-- Concrete settings for exercising the upsert round trip. -/
def roundTripSettings : HubSettings :=
  ⟨"_", "_", "## DIRECTORY", [], true, false, false, false, true, true, false⟩

/-- Concrete vault for exercising the upsert round trip: one folder `Z`
holding its hub `Z_` and one leaf note already carrying a correct link
block. -/
def roundTripVault : Vault :=
  ⟨[⟨"Z", "Z"⟩], fun _ => some 1,
    [⟨"Z", "Z_", "hub"⟩, ⟨"Z", "note", "[[Z_]]\n\n---\n\nbody line\nrest"⟩]⟩

/-- The leaf note of `roundTripVault`. -/
def roundTripNote : HFile := ⟨"Z", "note", "[[Z_]]\n\n---\n\nbody line\nrest"⟩

/-- Witness for `upsert_roundtrip` at the concrete vault above. -/
theorem upsert_roundtrip_witness :
    ∃ tail : String,
      upsertResult roundTripVault roundTripNote roundTripSettings =
        (if roundTripSettings.removeHiddenBlink then "\n" else "") ++
          (if roundTripSettings.autoHideHubLinks then
            "<span class=\"" ++ CSS_CLASS_OB_HIDE ++ "\">" ++
              ("[[" ++ expectedHubName roundTripVault ⟨"Z", "Z"⟩
                roundTripSettings ++ "]]") ++ "</span>"
          else "[[" ++ expectedHubName roundTripVault ⟨"Z", "Z"⟩
            roundTripSettings ++ "]]") ++ "\n\n" ++
          (if roundTripSettings.insertSeparatorAfterHubLink then "---\n\n"
            else "") ++ tail ∧
      (∃ pre : String, roundTripNote.content = pre ++ tail) ∧
      tail = (if roundTripSettings.insertSeparatorAfterHubLink then
          stripLeadingSeparator (joinLines ((linesOf roundTripNote.content).drop
            (stripLeadingHubLinkLines (linesOf roundTripNote.content) none
              roundTripSettings)))
        else joinLines ((linesOf roundTripNote.content).drop
          (stripLeadingHubLinkLines (linesOf roundTripNote.content) none
            roundTripSettings))) := by
  exact upsert_roundtrip roundTripVault roundTripNote roundTripSettings
    ⟨"Z", "Z"⟩ ⟨"Z", "Z_", "hub"⟩ (by decide) (by decide) (by decide)
    (by decide) (by decide) (by decide)

/-! ### Write lock and vault event handlers (`writeLock.ts`, `vaultEvents.ts`)

The lock table is the `Map` of `writeLock.ts`, modelled as a partial map
from paths to the `Date.now()` timestamp of the engine write that locked
them; event dispatch happens at an explicit instant `now`.
`isWriteLocked` also returns the updated table, because the source
deletes an expired entry on lookup. -/

/-- The lock table of `writeLock.ts`. -/
abbrev Locks : Type := String → Option Int

/-- `setWriteLock` from `writeLock.ts`. -/
def setWriteLock (locks : Locks) (path : String) (now : Int) : Locks :=
  fun p => if p = path then some now else locks p

/-- `isWriteLocked` from `writeLock.ts`: locked iff the path was written
less than `WRITE_LOCK_MS` ago; an expired entry is deleted on the way
out. -/
def isWriteLocked (locks : Locks) (path : String) (now : Int) :
    Bool × Locks :=
  match locks path with
  | none => (false, locks)
  | some t =>
    if WRITE_LOCK_MS ≤ now - t then
      (false, fun p => if p = path then none else locks p)
    else (true, locks)

/-- `runSuffixMigrationIfNeeded` from `vaultEvents.ts`: when the suffix
changed since the last link refresh, run the full rebuild and then the
full link refresh (which syncs `previousHubSuffix`); `none` when no
migration is pending. -/
def runSuffixMigrationIfNeeded (v : Vault) (settings : HubSettings) :
    Option (Vault × HubSettings × Nat) :=
  if settings.hubSuffix = settings.previousHubSuffix then none
  else
    let n := buildRefreshHubNotes v settings
    let l := buildRefreshHubLinks n.1 settings
    some (l.1, l.2.1, n.2 + l.2.2)

/-- Whether one path lies at or below a folder path. -/
def listStartsWith : List Char → List Char → Bool
  | _, [] => true
  | [], _ :: _ => false
  | c :: cs, p :: ps => c = p && listStartsWith cs ps

/-- `getMarkdownFilesUnderFolder` from `vaultEvents.ts`: every file of the
folder or of a descendant folder (every file of the model is a markdown
file), in enumeration order. -/
def getMarkdownFilesUnderFolder (v : Vault) (folder : Folder) :
    List HFile :=
  v.files.filter (fun f =>
    f.folderPath = folder.path ||
      listStartsWith f.folderPath.data (folder.path ++ "/").data)

/-- The note loop of `refreshLinksInNotesForFolderName`, also the
trailing note loop of `onFolderRename`. -/
def refreshNotesLoop (settings : HubSettings) :
    Vault → List HFile → Vault × Nat
  | v, [] => (v, 0)
  | v, note :: rest =>
    let r := upsertHubLinkInNote v note settings
    let r2 := refreshNotesLoop settings r.1 rest
    (r2.1, r.2 + r2.2)

/-- The folder loop of `refreshLinksInNotesForFolderName`: the notes of a
group member are collected when the member is visited. -/
def refreshFoldersLoop (settings : HubSettings) :
    Vault → List Folder → Vault × Nat
  | v, [] => (v, 0)
  | v, folder :: rest =>
    let r := refreshNotesLoop settings v
      (getMarkdownFilesUnderFolder v folder)
    let r2 := refreshFoldersLoop settings r.1 rest
    (r2.1, r.2 + r2.2)

/-- `refreshLinksInNotesForFolderName` from `vaultEvents.ts`. -/
def refreshLinksInNotesForFolderName (v : Vault) (folderName : String)
    (settings : HubSettings) : Vault × Nat :=
  let options := pathSkipFromSettings settings
  let sameName := getFoldersWithSameName v.folders v.stat folderName options
  refreshFoldersLoop settings v sameName

/-- `onFolderCreate` from `vaultEvents.ts`. -/
def onFolderCreate (v : Vault) (folder : Folder) (settings : HubSettings) :
    Vault × HubSettings × Nat :=
  if !settings.realTimeUpdating then (v, settings, 0)
  else if settings.autoCreateSuppressedUntilBuildRefresh then (v, settings, 0)
  else match runSuffixMigrationIfNeeded v settings with
  | some r => r
  | none =>
    if isRootFolder folder.path then (v, settings, 0)
    else if shouldSkipPath folder.path (pathSkipFromSettings settings) then
      (v, settings, 0)
    else
      let e := ensureHubForFolder v folder settings
      let d := handleDuplicateFolderNames e.1 folder.name settings
      let r := refreshLinksInNotesForFolderName d.1 folder.name settings
      (r.1, settings, e.2 + d.2 + r.2)

/-- The immediate-subfolder content loop at the end of `onFolderRename`. -/
def ensureChildrenLoop (settings : HubSettings) :
    Vault → List Folder → Vault × Nat
  | v, [] => (v, 0)
  | v, child :: rest =>
    let r := match findHubInFolder v child settings with
      | some childHub => ensureHubContentUpToDate v childHub child settings
      | none => (v, 0)
    let r2 := ensureChildrenLoop settings r.1 rest
    (r2.1, r.2 + r2.2)

/-- `onFolderRename` from `vaultEvents.ts`: rename the hub (found under
the new or the old folder name) to the expected name — write-locking its
old and new paths — then renumber and refresh links for the old and the
new name, refresh the folder's and its immediate subfolders' hub
content, and upsert every note under the folder. -/
def onFolderRename (v : Vault) (locks : Locks) (now : Int)
    (folder : Folder) (oldPath : String) (settings : HubSettings) :
    Vault × Locks × HubSettings × Nat :=
  if !settings.realTimeUpdating then (v, locks, settings, 0)
  else if settings.autoCreateSuppressedUntilBuildRefresh then
    (v, locks, settings, 0)
  else match runSuffixMigrationIfNeeded v settings with
  | some r => (r.1, locks, r.2.1, r.2.2)
  | none =>
    if isRootFolder folder.path then (v, locks, settings, 0)
    else if shouldSkipPath folder.path (pathSkipFromSettings settings) then
      (v, locks, settings, 0)
    else
      let oldFolderName := getFolderNameFromPath oldPath
      let expectedName := expectedHubName v folder settings
      let hub := match findHubInFolder v folder settings with
        | some h => some h
        | none => findHubInFolderWithName v folder.path oldFolderName settings
      let step : Vault × Locks × Nat := match hub with
        | some h =>
          if h.basename ≠ expectedName then
            let newPath := folder.path ++ "/" ++ expectedName ++ ".md"
            let locks1 := setWriteLock
              (setWriteLock locks (HFile.path h) now) newPath now
            (vRenameFile v folder.path h.basename expectedName, locks1, 1)
          else (v, locks, 0)
        | none => (v, locks, 0)
      let d1 := handleDuplicateFolderNames step.1 oldFolderName settings
      let d2 := handleDuplicateFolderNames d1.1 folder.name settings
      let r1 := refreshLinksInNotesForFolderName d2.1 oldFolderName settings
      let r2 := refreshLinksInNotesForFolderName r1.1 folder.name settings
      let after : Vault × Nat :=
        match findHubInFolder r2.1 folder settings with
        | some hubAfter =>
          ensureHubContentUpToDate r2.1 hubAfter folder settings
        | none => (r2.1, 0)
      let childFolders := after.1.folders.filter
        (fun c => parentPathOf c.path = folder.path)
      let c := ensureChildrenLoop settings after.1 childFolders
      let u := refreshNotesLoop settings c.1
        (getMarkdownFilesUnderFolder c.1 folder)
      (u.1, step.2.1, settings,
        step.2.2 + d1.2 + d2.2 + r1.2 + r2.2 + after.2 + c.2 + u.2)

/-- `onFolderDelete` from `vaultEvents.ts`. -/
def onFolderDelete (v : Vault) (folderName : String)
    (settings : HubSettings) : Vault × HubSettings × Nat :=
  if !settings.realTimeUpdating then (v, settings, 0)
  else if settings.autoCreateSuppressedUntilBuildRefresh then (v, settings, 0)
  else match runSuffixMigrationIfNeeded v settings with
  | some r => r
  | none =>
    let d := handleDuplicateFolderNames v folderName settings
    let r := refreshLinksInNotesForFolderName d.1 folderName settings
    (r.1, settings, d.2 + r.2)

/-- `onFileCreate` from `vaultEvents.ts` (every file of the model is a
markdown file): the path's write lock is consulted only after the
real-time, suppression and migration checks. -/
def onFileCreate (v : Vault) (locks : Locks) (now : Int) (file : HFile)
    (settings : HubSettings) : Vault × Locks × HubSettings × Nat :=
  if !settings.realTimeUpdating then (v, locks, settings, 0)
  else if settings.autoCreateSuppressedUntilBuildRefresh then
    (v, locks, settings, 0)
  else match runSuffixMigrationIfNeeded v settings with
  | some r => (r.1, locks, r.2.1, r.2.2)
  | none =>
    let wl := isWriteLocked locks (HFile.path file) now
    if wl.1 then (v, wl.2, settings, 0)
    else if shouldSkipPath (HFile.path file) (pathSkipFromSettings settings)
    then (v, wl.2, settings, 0)
    else
      let u := upsertHubLinkInNote v file settings
      (u.1, wl.2, settings, u.2)

/-- `onFileRename` from `vaultEvents.ts`: only the file's new path is
lock-checked, and only after the real-time, suppression and migration
checks. -/
def onFileRename (v : Vault) (locks : Locks) (now : Int) (file : HFile)
    (settings : HubSettings) : Vault × Locks × HubSettings × Nat :=
  if !settings.realTimeUpdating then (v, locks, settings, 0)
  else if settings.autoCreateSuppressedUntilBuildRefresh then
    (v, locks, settings, 0)
  else match runSuffixMigrationIfNeeded v settings with
  | some r => (r.1, locks, r.2.1, r.2.2)
  | none =>
    let wl := isWriteLocked locks (HFile.path file) now
    if wl.1 then (v, wl.2, settings, 0)
    else
      let u := upsertHubLinkInNote v file settings
      (u.1, wl.2, settings, u.2)

/-- A vault entry as delivered by a change notification. -/
inductive VEntry where
  | folderEntry (folder : Folder)
  | fileEntry (file : HFile)

/-- The `path` of an event entry. -/
def entryPath : VEntry → String
  | .folderEntry f => f.path
  | .fileEntry f => HFile.path f

/-- A vault change notification. -/
inductive VaultEvent where
  | vcreate (entry : VEntry)
  | vrename (entry : VEntry) (oldPath : String)
  | vdelete (entry : VEntry)

/-- The event dispatchers registered by `registerVaultEvents`: the create
callback lock-checks the notified path before delegating; the rename
callback lock-checks the new and then the old path for folders only; the
delete callback performs no lock check and delegates folder deletions. -/
def handleEvent (v : Vault) (locks : Locks) (now : Int)
    (settings : HubSettings) :
    VaultEvent → Vault × Locks × HubSettings × Nat
  | .vcreate entry =>
    let wl := isWriteLocked locks (entryPath entry) now
    if wl.1 then (v, wl.2, settings, 0)
    else match entry with
      | .folderEntry folder =>
        let r := onFolderCreate v folder settings
        (r.1, wl.2, r.2)
      | .fileEntry file => onFileCreate v wl.2 now file settings
  | .vrename entry oldPath =>
    match entry with
    | .folderEntry folder =>
      let wl1 := isWriteLocked locks folder.path now
      if wl1.1 then (v, wl1.2, settings, 0)
      else
        let wl2 := isWriteLocked wl1.2 oldPath now
        if wl2.1 then (v, wl2.2, settings, 0)
        else onFolderRename v wl2.2 now folder oldPath settings
    | .fileEntry file => onFileRename v locks now file settings
  | .vdelete entry =>
    match entry with
    | .folderEntry folder =>
      let r := onFolderDelete v folder.name settings
      (r.1, locks, r.2)
    | .fileEntry _ => (v, locks, settings, 0)

/-! ### Write-lock guard coverage of the dispatchers (claim C4) -/

/-- A locked lookup does not modify the lock table. -/
theorem isWriteLocked_of_locked (locks : Locks) (p : String) (now : Int)
    (h : (isWriteLocked locks p now).1 = true) :
    isWriteLocked locks p now = (true, locks) := by
  rw [isWriteLocked] at h ⊢
  cases hl : locks p with
  | none =>
    rw [hl] at h
    simp at h
  | some t =>
    dsimp only at h ⊢
    by_cases hc : WRITE_LOCK_MS ≤ now - t
    · rw [hl] at h
      dsimp only at h
      rw [if_pos hc] at h
      simp at h
    · rw [if_neg hc]

/-- Looking the same path up twice in a row cannot turn it locked: the
lazy deletion of an expired entry keeps the path unlocked. -/
theorem isWriteLocked_cleanup (locks : Locks) (p : String) (now : Int)
    (h : (isWriteLocked locks p now).1 = false) :
    (isWriteLocked (isWriteLocked locks p now).2 p now).1 = false := by
  cases hl : locks p with
  | none =>
    have h2 : isWriteLocked locks p now = (false, locks) := by
      rw [isWriteLocked, hl]
    rw [h2]
    rw [isWriteLocked]
    dsimp only
    rw [hl]
  | some t =>
    by_cases hc : WRITE_LOCK_MS ≤ now - t
    · have h2 : isWriteLocked locks p now =
          (false, fun q => if q = p then none else locks q) := by
        rw [isWriteLocked, hl]
        dsimp only
        rw [if_pos hc]
      rw [h2, isWriteLocked]
      simp
    · have h2 : isWriteLocked locks p now = (true, locks) := by
        rw [isWriteLocked, hl]
        dsimp only
        rw [if_neg hc]
      rw [h2] at h
      simp at h

/-- Counterexample to claim C4 as stated: with every path
write-locked at the event instant (all locks set at time `0`, dispatch at
time `0`, well within `WRITE_LOCK_MS`), a folder-delete notification
still performs vault writes — the delete dispatcher never consults the
write lock (here it demotes the numbered hub `X_1` of the now-unique
folder `X` back to `X_` and refreshes its content, two writes). -/
theorem delete_handler_ignores_writeLock_cex :
    (handleEvent ⟨[⟨"X", "X"⟩], fun _ => some 1, [⟨"X", "X_1", "c"⟩]⟩
        (fun _ => some 0) 0
        ⟨"_", "_", "## DIRECTORY", [".trash"], true, true, false, false,
          true, true, false⟩
        (.vdelete (.folderEntry ⟨"X", "X"⟩))).2.2.2 ≠ 0 ∧
      (isWriteLocked (fun _ => some 0) "X" 0).1 = true := by
  constructor
  · decide
  · decide

/-- Claim C4 (amended): the guards the dispatchers actually implement.
A lock entry is live exactly while less than `WRITE_LOCK_MS` has elapsed
since the write.  A create notification (file or folder) is lock-checked
first and dropped with no side effects when its path is locked; a folder
rename is dropped when the new or the old path is locked; a file rename
consults only the file's new path, and only after the real-time,
suppression and migration checks (so the guard holds when no suffix
migration is pending).  When the lock is absent or expired, a folder
create runs the full handler and a file create (eligible and unskipped)
runs the upsert — an expired lock is processed like no lock at all.
Delete notifications are never lock-checked (see the counterexample). -/
theorem event_writeLock_guards (v : Vault) (locks : Locks) (now : Int)
    (settings : HubSettings) :
    (∀ p t, locks p = some t →
      ((isWriteLocked locks p now).1 = true ↔ now - t < WRITE_LOCK_MS)) ∧
    (∀ entry, (isWriteLocked locks (entryPath entry) now).1 = true →
      handleEvent v locks now settings (.vcreate entry) =
        (v, locks, settings, 0)) ∧
    (∀ folder oldPath,
      ((isWriteLocked locks folder.path now).1 = true ∨
        (isWriteLocked (isWriteLocked locks folder.path now).2 oldPath
          now).1 = true) →
      (handleEvent v locks now settings
        (.vrename (.folderEntry folder) oldPath)).1 = v ∧
      (handleEvent v locks now settings
        (.vrename (.folderEntry folder) oldPath)).2.2 = (settings, 0)) ∧
    (∀ file oldPath, settings.previousHubSuffix = settings.hubSuffix →
      (isWriteLocked locks (HFile.path file) now).1 = true →
      (handleEvent v locks now settings
        (.vrename (.fileEntry file) oldPath)).1 = v ∧
      (handleEvent v locks now settings
        (.vrename (.fileEntry file) oldPath)).2.2 = (settings, 0)) ∧
    (∀ folder, (isWriteLocked locks folder.path now).1 = false →
      handleEvent v locks now settings (.vcreate (.folderEntry folder)) =
        ((onFolderCreate v folder settings).1,
          (isWriteLocked locks folder.path now).2,
          (onFolderCreate v folder settings).2)) ∧
    (∀ file, (isWriteLocked locks (HFile.path file) now).1 = false →
      settings.realTimeUpdating = true →
      settings.autoCreateSuppressedUntilBuildRefresh = false →
      settings.previousHubSuffix = settings.hubSuffix →
      shouldSkipPath (HFile.path file) (pathSkipFromSettings settings) =
        false →
      (handleEvent v locks now settings (.vcreate (.fileEntry file))).1 =
        (upsertHubLinkInNote v file settings).1 ∧
      (handleEvent v locks now settings
        (.vcreate (.fileEntry file))).2.2.2 =
        (upsertHubLinkInNote v file settings).2) := by
  refine ⟨?_, ?_, ?_, ?_, ?_, ?_⟩
  · intro p t hpt
    constructor
    · intro hlk
      by_contra hge
      have hge' : WRITE_LOCK_MS ≤ now - t := not_lt.mp hge
      rw [isWriteLocked, hpt] at hlk
      dsimp only at hlk
      rw [if_pos hge'] at hlk
      simp at hlk
    · intro hlt
      rw [isWriteLocked, hpt]
      dsimp only
      rw [if_neg (not_le.mpr hlt)]
  · intro entry hlk
    have h2 := isWriteLocked_of_locked locks (entryPath entry) now hlk
    simp only [handleEvent, h2, if_true]
  · intro folder oldPath hdisj
    by_cases h1 : (isWriteLocked locks folder.path now).1 = true
    · have e1 := isWriteLocked_of_locked locks folder.path now h1
      constructor <;> simp only [handleEvent, e1, if_true]
    · have h1f := eq_false_of_ne_true h1
      rcases hdisj with hA | hB
      · exact absurd hA h1
      · have e2 := isWriteLocked_of_locked _ oldPath now hB
        constructor <;>
          simp only [handleEvent, h1f, e2, Bool.false_eq_true, if_false,
            if_true]
  · intro file oldPath hprev hlk
    have hmig : runSuffixMigrationIfNeeded v settings = none := by
      rw [runSuffixMigrationIfNeeded, if_pos hprev.symm]
    have e1 := isWriteLocked_of_locked locks (HFile.path file) now hlk
    by_cases hrt : settings.realTimeUpdating = true
    · by_cases hsup : settings.autoCreateSuppressedUntilBuildRefresh = true
      · constructor <;>
          simp only [handleEvent, onFileRename, hrt, hsup, Bool.not_true,
            Bool.false_eq_true, if_false, if_true]
      · have hsupf := eq_false_of_ne_true hsup
        constructor <;>
          simp only [handleEvent, onFileRename, hrt, hsupf, hmig, e1,
            Bool.not_true, Bool.false_eq_true, if_false, if_true]
    · have hrtf := eq_false_of_ne_true hrt
      constructor <;>
        simp only [handleEvent, onFileRename, hrtf, Bool.not_false, if_true]
  · intro folder hnl
    simp only [handleEvent, entryPath, hnl, Bool.false_eq_true, if_false]
  · intro file hnl hrt hsup hprev hskip
    have hmig : runSuffixMigrationIfNeeded v settings = none := by
      rw [runSuffixMigrationIfNeeded, if_pos hprev.symm]
    have hcl := isWriteLocked_cleanup locks (HFile.path file) now hnl
    constructor <;>
      simp only [handleEvent, onFileCreate, entryPath, hnl, hrt, hsup,
        hmig, hcl, hskip, Bool.not_true, Bool.false_eq_true, if_false,
        if_true]

/-- Concrete vault for exercising the dispatcher guards. -/
def guardVault : Vault :=
  ⟨[⟨"Q", "Q"⟩], fun _ => some 1, [⟨"Q", "Q_", "h"⟩, ⟨"Q", "n", "c"⟩]⟩

/-- Concrete settings for exercising the dispatcher guards. -/
def guardSettings : HubSettings :=
  ⟨"_", "_", "## DIRECTORY", [], true, false, false, false, true, true, false⟩

/-- A lock table locking every path at time `0`. -/
def guardLocks : Locks := fun _ => some 0

/-- An empty lock table. -/
def guardFreeLocks : Locks := fun _ => none

/-- Witness for `event_writeLock_guards` at concrete inputs: with every
path locked at the dispatch instant the create and rename notifications
are dropped, and with no locks the create notifications run the
handlers. -/
theorem event_writeLock_guards_witness :
    (((isWriteLocked guardLocks "Q" 0).1 = true ↔
        (0 : Int) - 0 < WRITE_LOCK_MS) ∧
      handleEvent guardVault guardLocks 0 guardSettings
        (.vcreate (.folderEntry ⟨"Q", "Q"⟩)) =
        (guardVault, guardLocks, guardSettings, 0) ∧
      ((handleEvent guardVault guardLocks 0 guardSettings
          (.vrename (.folderEntry ⟨"Q", "Q"⟩) "P")).1 = guardVault ∧
        (handleEvent guardVault guardLocks 0 guardSettings
          (.vrename (.folderEntry ⟨"Q", "Q"⟩) "P")).2.2 =
          (guardSettings, 0)) ∧
      ((handleEvent guardVault guardLocks 0 guardSettings
          (.vrename (.fileEntry ⟨"Q", "n", "c"⟩) "P")).1 = guardVault ∧
        (handleEvent guardVault guardLocks 0 guardSettings
          (.vrename (.fileEntry ⟨"Q", "n", "c"⟩) "P")).2.2 =
          (guardSettings, 0))) ∧
    (handleEvent guardVault guardFreeLocks 0 guardSettings
        (.vcreate (.folderEntry ⟨"Q", "Q"⟩)) =
        ((onFolderCreate guardVault ⟨"Q", "Q"⟩ guardSettings).1,
          (isWriteLocked guardFreeLocks "Q" 0).2,
          (onFolderCreate guardVault ⟨"Q", "Q"⟩ guardSettings).2) ∧
      ((handleEvent guardVault guardFreeLocks 0 guardSettings
          (.vcreate (.fileEntry ⟨"Q", "n", "c"⟩))).1 =
          (upsertHubLinkInNote guardVault ⟨"Q", "n", "c"⟩ guardSettings).1 ∧
        (handleEvent guardVault guardFreeLocks 0 guardSettings
          (.vcreate (.fileEntry ⟨"Q", "n", "c"⟩))).2.2.2 =
          (upsertHubLinkInNote guardVault ⟨"Q", "n", "c"⟩
            guardSettings).2)) := by
  refine ⟨⟨?_, ?_, ?_, ?_⟩, ?_, ?_⟩
  · exact (event_writeLock_guards guardVault guardLocks 0
      guardSettings).1 "Q" 0 rfl
  · exact (event_writeLock_guards guardVault guardLocks 0
      guardSettings).2.1 (.folderEntry ⟨"Q", "Q"⟩) (by decide)
  · exact (event_writeLock_guards guardVault guardLocks 0
      guardSettings).2.2.1 ⟨"Q", "Q"⟩ "P" (Or.inl (by decide))
  · exact (event_writeLock_guards guardVault guardLocks 0
      guardSettings).2.2.2.1 ⟨"Q", "n", "c"⟩ "P" rfl (by decide)
  · exact (event_writeLock_guards guardVault guardFreeLocks 0
      guardSettings).2.2.2.2.1 ⟨"Q", "Q"⟩ (by decide)
  · exact (event_writeLock_guards guardVault guardFreeLocks 0
      guardSettings).2.2.2.2.2 ⟨"Q", "n", "c"⟩ (by decide) rfl rfl rfl
      (by decide)

/-! ### Plugin commands and the suppression flag (`main.ts`, claims C5, C7) -/

/-- The Build/Refresh-hub-notes command (`main.ts`): clear the
suppression flag (persisting it) before running the rebuild pass. -/
def buildRefreshHubNotesCommand (v : Vault) (settings : HubSettings) :
    Vault × HubSettings × Nat :=
  let s := { settings with autoCreateSuppressedUntilBuildRefresh := false }
  let r := buildRefreshHubNotes v s
  (r.1, s, r.2)

/-- The Build/Refresh-hub-links command (`main.ts`): clear the
suppression flag (persisting it) before running the link refresh, which
itself syncs `previousHubSuffix`. -/
def buildRefreshHubLinksCommand (v : Vault) (settings : HubSettings) :
    Vault × HubSettings × Nat :=
  let s := { settings with autoCreateSuppressedUntilBuildRefresh := false }
  buildRefreshHubLinks v s

/-- The Remove-all-hub-notes command (`main.ts`): set the suppression
flag (persisting it) before removing anything. -/
def removeAllHubNotesCommand (v : Vault) (settings : HubSettings) :
    Vault × HubSettings × Nat :=
  let s := { settings with autoCreateSuppressedUntilBuildRefresh := true }
  let r := removeAllHubNotesEngine v s
  (r.1, s, r.2)

/-- The Remove-all-hub-links command (`main.ts`): set the suppression
flag (persisting it) before removing anything. -/
def removeAllHubLinksCommand (v : Vault) (settings : HubSettings) :
    Vault × HubSettings × Nat :=
  let s := { settings with autoCreateSuppressedUntilBuildRefresh := true }
  let r := removeAllHubLinksFromNotes v s
  (r.1, s, r.2)

/-- Whether `onload` schedules the startup refresh (`main.ts`). -/
def onloadSchedulesStartup (settings : HubSettings) : Bool :=
  settings.realTimeUpdating &&
    !settings.autoCreateSuppressedUntilBuildRefresh

/-- A pending migration run by a handler only syncs `previousHubSuffix`. -/
theorem migration_settings (v : Vault) (s : HubSettings)
    (r : Vault × HubSettings × Nat)
    (h : runSuffixMigrationIfNeeded v s = some r) :
    r.2.1 = { s with previousHubSuffix := s.hubSuffix } := by
  rw [runSuffixMigrationIfNeeded] at h
  by_cases hc : s.hubSuffix = s.previousHubSuffix
  · rw [if_pos hc] at h
    exact absurd h (by simp)
  · rw [if_neg hc] at h
    dsimp only at h
    have := (Option.some.injEq _ _).mp h
    rw [← this]
    rfl

/-- While the suppression flag is set, `onFolderCreate` is a no-op. -/
theorem onFolderCreate_suppressed (v : Vault) (folder : Folder)
    (s : HubSettings) (h : s.autoCreateSuppressedUntilBuildRefresh = true) :
    onFolderCreate v folder s = (v, s, 0) := by
  rw [onFolderCreate]
  by_cases hrt : s.realTimeUpdating = true
  · simp only [hrt, h, Bool.not_true, Bool.false_eq_true, if_false, if_true]
  · have hrtf := eq_false_of_ne_true hrt
    simp only [hrtf, Bool.not_false, if_true]

/-- While the suppression flag is set, `onFolderRename` is a no-op. -/
theorem onFolderRename_suppressed (v : Vault) (locks : Locks) (now : Int)
    (folder : Folder) (oldPath : String) (s : HubSettings)
    (h : s.autoCreateSuppressedUntilBuildRefresh = true) :
    onFolderRename v locks now folder oldPath s = (v, locks, s, 0) := by
  rw [onFolderRename]
  by_cases hrt : s.realTimeUpdating = true
  · simp only [hrt, h, Bool.not_true, Bool.false_eq_true, if_false, if_true]
  · have hrtf := eq_false_of_ne_true hrt
    simp only [hrtf, Bool.not_false, if_true]

/-- While the suppression flag is set, `onFolderDelete` is a no-op. -/
theorem onFolderDelete_suppressed (v : Vault) (folderName : String)
    (s : HubSettings) (h : s.autoCreateSuppressedUntilBuildRefresh = true) :
    onFolderDelete v folderName s = (v, s, 0) := by
  rw [onFolderDelete]
  by_cases hrt : s.realTimeUpdating = true
  · simp only [hrt, h, Bool.not_true, Bool.false_eq_true, if_false, if_true]
  · have hrtf := eq_false_of_ne_true hrt
    simp only [hrtf, Bool.not_false, if_true]

/-- While the suppression flag is set, `onFileCreate` is a no-op. -/
theorem onFileCreate_suppressed (v : Vault) (locks : Locks) (now : Int)
    (file : HFile) (s : HubSettings)
    (h : s.autoCreateSuppressedUntilBuildRefresh = true) :
    onFileCreate v locks now file s = (v, locks, s, 0) := by
  rw [onFileCreate]
  by_cases hrt : s.realTimeUpdating = true
  · simp only [hrt, h, Bool.not_true, Bool.false_eq_true, if_false, if_true]
  · have hrtf := eq_false_of_ne_true hrt
    simp only [hrtf, Bool.not_false, if_true]

/-- While the suppression flag is set, `onFileRename` is a no-op. -/
theorem onFileRename_suppressed (v : Vault) (locks : Locks) (now : Int)
    (file : HFile) (s : HubSettings)
    (h : s.autoCreateSuppressedUntilBuildRefresh = true) :
    onFileRename v locks now file s = (v, locks, s, 0) := by
  rw [onFileRename]
  by_cases hrt : s.realTimeUpdating = true
  · simp only [hrt, h, Bool.not_true, Bool.false_eq_true, if_false, if_true]
  · have hrtf := eq_false_of_ne_true hrt
    simp only [hrtf, Bool.not_false, if_true]

/-- `onFolderCreate` either returns the settings unchanged or (pending
migration) with `previousHubSuffix` synced. -/
theorem onFolderCreate_settings (v : Vault) (folder : Folder)
    (s : HubSettings) :
    (onFolderCreate v folder s).2.1 = s ∨
    (onFolderCreate v folder s).2.1 =
      { s with previousHubSuffix := s.hubSuffix } := by
  rw [onFolderCreate]
  by_cases hrt : s.realTimeUpdating = true
  · by_cases hsup : s.autoCreateSuppressedUntilBuildRefresh = true
    · left
      simp only [hrt, hsup, Bool.not_true, Bool.false_eq_true, if_false,
        if_true]
    · have hsupf := eq_false_of_ne_true hsup
      cases hm : runSuffixMigrationIfNeeded v s with
      | some r =>
        right
        simp only [hrt, hsupf, hm, Bool.not_true, Bool.false_eq_true,
          if_false, if_true]
        rw [migration_settings v s r hm, hrt, hsupf]
      | none =>
        left
        simp only [hrt, hsupf, hm, Bool.not_true, Bool.false_eq_true,
          if_false, if_true]
        split
        · rfl
        · split
          · rfl
          · rfl
  · left
    have hrtf := eq_false_of_ne_true hrt
    simp only [hrtf, Bool.not_false, if_true]

/-- `onFolderRename` either returns the settings unchanged or (pending
migration) with `previousHubSuffix` synced. -/
theorem onFolderRename_settings (v : Vault) (locks : Locks) (now : Int)
    (folder : Folder) (oldPath : String) (s : HubSettings) :
    (onFolderRename v locks now folder oldPath s).2.2.1 = s ∨
    (onFolderRename v locks now folder oldPath s).2.2.1 =
      { s with previousHubSuffix := s.hubSuffix } := by
  rw [onFolderRename]
  by_cases hrt : s.realTimeUpdating = true
  · by_cases hsup : s.autoCreateSuppressedUntilBuildRefresh = true
    · left
      simp only [hrt, hsup, Bool.not_true, Bool.false_eq_true, if_false,
        if_true]
    · have hsupf := eq_false_of_ne_true hsup
      cases hm : runSuffixMigrationIfNeeded v s with
      | some r =>
        right
        simp only [hrt, hsupf, hm, Bool.not_true, Bool.false_eq_true,
          if_false, if_true]
        rw [migration_settings v s r hm, hrt, hsupf]
      | none =>
        left
        simp only [hrt, hsupf, hm, Bool.not_true, Bool.false_eq_true,
          if_false, if_true]
        split
        · rfl
        · split
          · rfl
          · rfl
  · left
    have hrtf := eq_false_of_ne_true hrt
    simp only [hrtf, Bool.not_false, if_true]

/-- `onFolderDelete` either returns the settings unchanged or (pending
migration) with `previousHubSuffix` synced. -/
theorem onFolderDelete_settings (v : Vault) (folderName : String)
    (s : HubSettings) :
    (onFolderDelete v folderName s).2.1 = s ∨
    (onFolderDelete v folderName s).2.1 =
      { s with previousHubSuffix := s.hubSuffix } := by
  rw [onFolderDelete]
  by_cases hrt : s.realTimeUpdating = true
  · by_cases hsup : s.autoCreateSuppressedUntilBuildRefresh = true
    · left
      simp only [hrt, hsup, Bool.not_true, Bool.false_eq_true, if_false,
        if_true]
    · have hsupf := eq_false_of_ne_true hsup
      cases hm : runSuffixMigrationIfNeeded v s with
      | some r =>
        right
        simp only [hrt, hsupf, hm, Bool.not_true, Bool.false_eq_true,
          if_false, if_true]
        rw [migration_settings v s r hm, hrt, hsupf]
      | none =>
        left
        simp only [hrt, hsupf, hm, Bool.not_true, Bool.false_eq_true,
          if_false, if_true]
  · left
    have hrtf := eq_false_of_ne_true hrt
    simp only [hrtf, Bool.not_false, if_true]

/-- `onFileCreate` either returns the settings unchanged or (pending
migration) with `previousHubSuffix` synced. -/
theorem onFileCreate_settings (v : Vault) (locks : Locks) (now : Int)
    (file : HFile) (s : HubSettings) :
    (onFileCreate v locks now file s).2.2.1 = s ∨
    (onFileCreate v locks now file s).2.2.1 =
      { s with previousHubSuffix := s.hubSuffix } := by
  rw [onFileCreate]
  by_cases hrt : s.realTimeUpdating = true
  · by_cases hsup : s.autoCreateSuppressedUntilBuildRefresh = true
    · left
      simp only [hrt, hsup, Bool.not_true, Bool.false_eq_true, if_false,
        if_true]
    · have hsupf := eq_false_of_ne_true hsup
      cases hm : runSuffixMigrationIfNeeded v s with
      | some r =>
        right
        simp only [hrt, hsupf, hm, Bool.not_true, Bool.false_eq_true,
          if_false, if_true]
        rw [migration_settings v s r hm, hrt, hsupf]
      | none =>
        left
        simp only [hrt, hsupf, hm, Bool.not_true, Bool.false_eq_true,
          if_false, if_true]
        split
        · rfl
        · split
          · rfl
          · rfl
  · left
    have hrtf := eq_false_of_ne_true hrt
    simp only [hrtf, Bool.not_false, if_true]

/-- `onFileRename` either returns the settings unchanged or (pending
migration) with `previousHubSuffix` synced. -/
theorem onFileRename_settings (v : Vault) (locks : Locks) (now : Int)
    (file : HFile) (s : HubSettings) :
    (onFileRename v locks now file s).2.2.1 = s ∨
    (onFileRename v locks now file s).2.2.1 =
      { s with previousHubSuffix := s.hubSuffix } := by
  rw [onFileRename]
  by_cases hrt : s.realTimeUpdating = true
  · by_cases hsup : s.autoCreateSuppressedUntilBuildRefresh = true
    · left
      simp only [hrt, hsup, Bool.not_true, Bool.false_eq_true, if_false,
        if_true]
    · have hsupf := eq_false_of_ne_true hsup
      cases hm : runSuffixMigrationIfNeeded v s with
      | some r =>
        right
        simp only [hrt, hsupf, hm, Bool.not_true, Bool.false_eq_true,
          if_false, if_true]
        rw [migration_settings v s r hm, hrt, hsupf]
      | none =>
        left
        simp only [hrt, hsupf, hm, Bool.not_true, Bool.false_eq_true,
          if_false, if_true]
        split
        · rfl
        · rfl
  · left
    have hrtf := eq_false_of_ne_true hrt
    simp only [hrtf, Bool.not_false, if_true]

/-- Any dispatched event either returns the settings unchanged or
(pending migration) with `previousHubSuffix` synced. -/
theorem handleEvent_settings (v : Vault) (locks : Locks) (now : Int)
    (s : HubSettings) (e : VaultEvent) :
    (handleEvent v locks now s e).2.2.1 = s ∨
    (handleEvent v locks now s e).2.2.1 =
      { s with previousHubSuffix := s.hubSuffix } := by
  cases e with
  | vcreate entry =>
    simp only [handleEvent]
    split
    · left
      rfl
    · cases entry with
      | folderEntry folder => exact onFolderCreate_settings v folder s
      | fileEntry file => exact onFileCreate_settings v _ now file s
  | vrename entry oldPath =>
    cases entry with
    | folderEntry folder =>
      simp only [handleEvent]
      split
      · left
        rfl
      · split
        · left
          rfl
        · exact onFolderRename_settings v _ now folder oldPath s
    | fileEntry file =>
      simp only [handleEvent]
      exact onFileRename_settings v locks now file s
  | vdelete entry =>
    cases entry with
    | folderEntry folder =>
      simp only [handleEvent]
      exact onFolderDelete_settings v folder.name s
    | fileEntry file =>
      left
      rfl

/-- Claim C5: the Remove commands set the suppression flag before
removing anything (the removal itself runs under the already-set flag);
while the flag is set `onload` schedules no startup pass and every
dispatched event leaves the vault untouched, performs zero writes and
keeps the settings; the Build/Refresh commands clear the flag; and no
event handler ever changes the flag. -/
theorem suppression_flag_blocks (v : Vault) (locks : Locks) (now : Int)
    (settings : HubSettings) :
    ((removeAllHubNotesCommand v
        settings).2.1.autoCreateSuppressedUntilBuildRefresh = true ∧
      (removeAllHubNotesCommand v settings).1 =
        (removeAllHubNotesEngine v
          { settings with
              autoCreateSuppressedUntilBuildRefresh := true }).1) ∧
    ((removeAllHubLinksCommand v
        settings).2.1.autoCreateSuppressedUntilBuildRefresh = true ∧
      (removeAllHubLinksCommand v settings).1 =
        (removeAllHubLinksFromNotes v
          { settings with
              autoCreateSuppressedUntilBuildRefresh := true }).1) ∧
    (settings.autoCreateSuppressedUntilBuildRefresh = true →
      onloadSchedulesStartup settings = false) ∧
    (settings.autoCreateSuppressedUntilBuildRefresh = true →
      ∀ e, (handleEvent v locks now settings e).1 = v ∧
        (handleEvent v locks now settings e).2.2 = (settings, 0)) ∧
    ((buildRefreshHubNotesCommand v
        settings).2.1.autoCreateSuppressedUntilBuildRefresh = false) ∧
    ((buildRefreshHubLinksCommand v
        settings).2.1.autoCreateSuppressedUntilBuildRefresh = false) ∧
    (∀ e,
      (handleEvent v locks now settings
        e).2.2.1.autoCreateSuppressedUntilBuildRefresh =
        settings.autoCreateSuppressedUntilBuildRefresh) := by
  refine ⟨⟨rfl, rfl⟩, ⟨rfl, rfl⟩, ?_, ?_, rfl, rfl, ?_⟩
  · intro h
    rw [onloadSchedulesStartup, h]
    simp
  · intro h e
    cases e with
    | vcreate entry =>
      simp only [handleEvent]
      split
      · exact ⟨rfl, rfl⟩
      · cases entry with
        | folderEntry folder =>
          dsimp only
          rw [onFolderCreate_suppressed v folder settings h]
          exact ⟨rfl, rfl⟩
        | fileEntry file =>
          dsimp only
          rw [onFileCreate_suppressed v _ now file settings h]
          exact ⟨rfl, rfl⟩
    | vrename entry oldPath =>
      cases entry with
      | folderEntry folder =>
        simp only [handleEvent]
        split
        · exact ⟨rfl, rfl⟩
        · split
          · exact ⟨rfl, rfl⟩
          · rw [onFolderRename_suppressed v _ now folder oldPath settings h]
            exact ⟨rfl, rfl⟩
      | fileEntry file =>
        simp only [handleEvent]
        rw [onFileRename_suppressed v locks now file settings h]
        exact ⟨rfl, rfl⟩
    | vdelete entry =>
      cases entry with
      | folderEntry folder =>
        simp only [handleEvent]
        rw [onFolderDelete_suppressed v folder.name settings h]
        exact ⟨rfl, rfl⟩
      | fileEntry file => exact ⟨rfl, rfl⟩
  · intro e
    rcases handleEvent_settings v locks now settings e with h | h <;> rw [h]

/-- Settings with the suppression flag set. -/
def suppressSettings : HubSettings :=
  ⟨"_", "_", "## DIRECTORY", [], true, false, false, false, true, true, true⟩

/-- Witness for `suppression_flag_blocks` at concrete inputs: with the
flag set, no startup pass is scheduled and a folder-delete notification
(which claim C4 shows is otherwise unguarded) is a complete no-op. -/
theorem suppression_flag_blocks_witness :
    onloadSchedulesStartup suppressSettings = false ∧
    ((handleEvent guardVault guardLocks 0 suppressSettings
        (.vdelete (.folderEntry ⟨"Q", "Q"⟩))).1 = guardVault ∧
      (handleEvent guardVault guardLocks 0 suppressSettings
        (.vdelete (.folderEntry ⟨"Q", "Q"⟩))).2.2 =
        (suppressSettings, 0)) ∧
    (handleEvent guardVault guardLocks 0 suppressSettings
        (.vdelete (.folderEntry
          ⟨"Q", "Q"⟩))).2.2.1.autoCreateSuppressedUntilBuildRefresh =
      suppressSettings.autoCreateSuppressedUntilBuildRefresh := by
  refine ⟨?_, ?_, ?_⟩
  · exact (suppression_flag_blocks guardVault guardLocks 0
      suppressSettings).2.2.1 rfl
  · exact (suppression_flag_blocks guardVault guardLocks 0
      suppressSettings).2.2.2.1 rfl (.vdelete (.folderEntry ⟨"Q", "Q"⟩))
  · exact (suppression_flag_blocks guardVault guardLocks 0
      suppressSettings).2.2.2.2.2.2 (.vdelete (.folderEntry ⟨"Q", "Q"⟩))

/-- The rebuild pass with the migration branch taken, for comparison:
first delete every hub of the previous suffix (the pass carries no
settings output, so `previousHubSuffix` itself cannot change). -/
def migratedRebuild (v : Vault) (settings : HubSettings) : Vault × Nat :=
  let m := deleteAllHubFilesWithSuffix v settings settings.previousHubSuffix
  let options := pathSkipFromSettings settings
  let a := ensureAllLoop settings options m.1 m.1.folders
  let b := assignNamesLoop settings a.1 (dupNamesOf m.1.folders options)
  (b.1, m.2 + a.2 + b.2)

/-- The rebuild pass with the migration branch skipped. -/
def unmigratedRebuild (v : Vault) (settings : HubSettings) : Vault × Nat :=
  let options := pathSkipFromSettings settings
  let a := ensureAllLoop settings options v v.folders
  let b := assignNamesLoop settings a.1 (dupNamesOf v.folders options)
  (b.1, a.2 + b.2)

/-- Claim C7: `previousHubSuffix` is synced to the current suffix exactly
by the completion of the full link-refresh pass and nowhere else in the
engine: `buildRefreshHubLinks` returns the settings with only
`previousHubSuffix` changed (to `hubSuffix`); the Build/Refresh-hub-notes
command leaves `previousHubSuffix` untouched even though the rebuild pass
it runs performs the old-suffix deletion when a migration is pending (and
skips it otherwise); and every event handler returns the settings either
unchanged or — only by running the embedded link refresh of a pending
migration — with exactly `previousHubSuffix` synced. -/
theorem previousHubSuffix_sync_point (v : Vault) (locks : Locks)
    (now : Int) (settings : HubSettings) :
    ((buildRefreshHubLinks v settings).2.1 =
      { settings with previousHubSuffix := settings.hubSuffix }) ∧
    ((buildRefreshHubNotesCommand v settings).2.1.previousHubSuffix =
      settings.previousHubSuffix) ∧
    (settings.previousHubSuffix ≠ settings.hubSuffix →
      buildRefreshHubNotes v settings = migratedRebuild v settings) ∧
    (settings.previousHubSuffix = settings.hubSuffix →
      buildRefreshHubNotes v settings = unmigratedRebuild v settings) ∧
    (∀ e, (handleEvent v locks now settings e).2.2.1 = settings ∨
      (handleEvent v locks now settings e).2.2.1 =
        { settings with previousHubSuffix := settings.hubSuffix }) := by
  refine ⟨rfl, rfl, ?_, ?_, ?_⟩
  · intro h
    rw [buildRefreshHubNotes, migratedRebuild]
    rw [if_pos h]
  · intro h
    rw [buildRefreshHubNotes, unmigratedRebuild]
    rw [if_neg (not_not_intro h)]
    simp
  · intro e
    exact handleEvent_settings v locks now settings e

/-- Settings with a pending suffix migration (`previousHubSuffix`
differs from `hubSuffix`). -/
def migrationSettings : HubSettings :=
  ⟨"_", "_1", "## DIRECTORY", [], true, false, false, false, true, true,
    false⟩

/-- Witness for `previousHubSuffix_sync_point` at concrete inputs. -/
theorem previousHubSuffix_sync_point_witness :
    buildRefreshHubNotes guardVault migrationSettings =
      migratedRebuild guardVault migrationSettings ∧
    buildRefreshHubNotes guardVault guardSettings =
      unmigratedRebuild guardVault guardSettings ∧
    (buildRefreshHubLinks guardVault guardSettings).2.1 =
      { guardSettings with
          previousHubSuffix := guardSettings.hubSuffix } ∧
    ((handleEvent guardVault guardFreeLocks 0 migrationSettings
        (.vdelete (.folderEntry ⟨"Q", "Q"⟩))).2.2.1 = migrationSettings ∨
      (handleEvent guardVault guardFreeLocks 0 migrationSettings
        (.vdelete (.folderEntry ⟨"Q", "Q"⟩))).2.2.1 =
        { migrationSettings with
            previousHubSuffix := migrationSettings.hubSuffix }) := by
  refine ⟨?_, ?_, ?_, ?_⟩
  · exact (previousHubSuffix_sync_point guardVault guardFreeLocks 0
      migrationSettings).2.2.1 (by decide)
  · exact (previousHubSuffix_sync_point guardVault guardFreeLocks 0
      guardSettings).2.2.2.1 rfl
  · exact (previousHubSuffix_sync_point guardVault guardFreeLocks 0
      guardSettings).1
  · exact (previousHubSuffix_sync_point guardVault guardFreeLocks 0
      migrationSettings).2.2.2.2 (.vdelete (.folderEntry ⟨"Q", "Q"⟩))
